import Mathlib

/-!
Shallow embedding of the in-memory corpus of this repository
(`crates/libafl/src/corpus/inmemory.rs`) and proofs about its claims.

Modelling conventions:
* `CorpusId` wraps a `usize`; it is modelled as `Nat`.
* `hashbrown::HashMap<CorpusId, V>` is modelled as an association list
  `List (Nat × V)`: the hash map's internal order is never observed by the
  source (only `get`/`get_mut`/`insert`/`remove`/`len` are used).
* `alloc::collections::BTreeMap<CorpusId, V>` is modelled as an association
  list kept sorted by key; its range iterators are modelled on that sorted
  list.
* `RefCell<Testcase<I>>` is modelled as a plain value: the corpus code is
  single threaded and only uses `replace`/`take`/`borrow`, which on a
  `RefCell` behave like plain value read/write.
* Methods taking `&mut self` and returning `Result<T, Error>` are modelled as
  functions returning `Except Error T × State`, so that the state on the
  error path is explicit.
-/

set_option linter.unusedVariables false
set_option maxRecDepth 4000

namespace LibAFL

/-- Modelled from the spec: the error enum of the repository (its definition
is not under `src/`, only its use sites in `inmemory.rs` are).  The spec's
error taxonomy (section 7) names exactly the two constructors the corpus code
uses: `KeyNotFound` and `IllegalState`, each carrying a message. -/
inductive Error where
  | illegalState (msg : String)
  | keyNotFound (msg : String)
deriving DecidableEq, Repr

/-- Modelled from the spec: `CorpusId` wraps a non-negative integer
(`usize`), totally ordered, convertible to and from a plain index. -/
abbrev CorpusId := Nat

/-- The message of the illegal-state error raised by `insert_inner_with_id`. -/
def illegalStateMsg : String :=
  "trying to insert a testcase with an id bigger than the internal Id counter"

/-- Message built by `format!` in `InMemoryCorpus::remove` / `get` / `get_from_all`. -/
def notFoundMsg (id : Nat) : String :=
  "Index " ++ toString id ++ " not found"

/-- Message built by `format!` in `InMemoryCorpus::replace`. -/
def notFoundReplaceMsg (id : Nat) : String :=
  "Index " ++ toString id ++ " not found, could not replace."

/-- Message built by `format!` in `EnableDisableCorpus::disable`. -/
def notFoundEnabledMsg (id : Nat) : String :=
  "Index " ++ toString id ++ " not found in enabled testcases"

/-- Message built by `format!` in `EnableDisableCorpus::enable`. -/
def notFoundDisabledMsg (id : Nat) : String :=
  "Index " ++ toString id ++ " not found in disabled testcases"

/-- Largest value of `usize` (the repository targets 64-bit platforms). -/
def USIZE_MAX : Nat := 2 ^ 64 - 1

/-- Model of `usize::saturating_add`. -/
def satAdd (a b : Nat) : Nat := min (a + b) USIZE_MAX

variable {α : Type} {τ : Type}

/-- Lookup in the association-list model of a map (`HashMap::get` /
`BTreeMap::get`). -/
def mapGet : List (Nat × α) → Nat → Option α
  | [], _ => none
  | p :: rest, k => if p.1 = k then some p.2 else mapGet rest k

/-- Overwrite the value stored under key `k`, keeping positions (helper of
`mapInsert`). -/
def mapSet : List (Nat × α) → Nat → α → List (Nat × α)
  | [], _, _ => []
  | p :: rest, k, v => (if p.1 = k then (k, v) else p) :: mapSet rest k v

/-- Model of `HashMap::insert`: overwrite the value if the key is present,
otherwise add a fresh entry. -/
def mapInsert (m : List (Nat × α)) (k : Nat) (v : α) : List (Nat × α) :=
  if (mapGet m k).isSome then mapSet m k v else m ++ [(k, v)]

/-- Model of `HashMap::get_mut` followed by an in-place update of the value. -/
def mapModify : List (Nat × α) → Nat → (α → α) → List (Nat × α)
  | [], _, _ => []
  | p :: rest, k, f => (if p.1 = k then (p.1, f p.2) else p) :: mapModify rest k f

/-- Model of map deletion by key (`HashMap::remove` / `BTreeMap::remove`,
state part); on a map whose keys are unique this deletes exactly the entry
of `k`. -/
def mapDrop : List (Nat × α) → Nat → List (Nat × α)
  | [], _ => []
  | p :: rest, k => if p.1 = k then mapDrop rest k else p :: mapDrop rest k

/-- `TestcaseStorageMap::insert_key`: `binary_search` on the sorted `keys`
vector, inserting at the reported position when absent.  Modelled as sorted
insertion that is a no-op on a present key. -/
def insertKey : List Nat → Nat → List Nat
  | [], id => [id]
  | k :: rest, id =>
    if id < k then id :: k :: rest
    else if id = k then k :: rest
    else k :: insertKey rest id

/-- `TestcaseStorageMap::remove_key`: `binary_search` on the sorted `keys`
vector, removing the found occurrence.  Modelled as removal of the first
occurrence (the vector is sorted and duplicate free). -/
def removeKey : List Nat → Nat → List Nat
  | [], _ => []
  | k :: rest, id => if k = id then rest else k :: removeKey rest id

/-- `TestcaseStorageItem<I>` of the linked (default, non-`corpus_btreemap`)
variant: the stored testcase plus the doubly-linked-list neighbour ids in
insertion order.  The type parameter `τ` stands for `RefCell<Testcase<I>>`,
treated as an opaque value. -/
structure TestcaseStorageItem (τ : Type) where
  testcase : τ
  prev : Option Nat
  next : Option Nat
deriving DecidableEq, Repr

/-- `TestcaseStorageMap<I>` in the linked (default) configuration: hash map
from id to item, the sorted `keys` vector, and the `first_id` / `last_id`
sentinels of the insertion-order linked list. -/
structure TestcaseStorageMap (τ : Type) where
  map : List (Nat × TestcaseStorageItem τ)
  keys : List Nat
  first_id : Option Nat
  last_id : Option Nat
deriving DecidableEq, Repr

namespace TestcaseStorageMap

/-- `TestcaseStorageMap::insert_key`. -/
def insert_key (m : TestcaseStorageMap τ) (id : Nat) : TestcaseStorageMap τ :=
  { m with keys := insertKey m.keys id }

/-- `TestcaseStorageMap::remove_key`. -/
def remove_key (m : TestcaseStorageMap τ) (id : Nat) : TestcaseStorageMap τ :=
  { m with keys := removeKey m.keys id }

/-- `TestcaseStorageMap::replace` (linked variant): `get_mut` then
`RefCell::replace` of the stored testcase, returning the old value; `None`
and no state change when the id is absent. -/
def replace (m : TestcaseStorageMap τ) (id : Nat) (tc : τ) :
    Option τ × TestcaseStorageMap τ :=
  match mapGet m.map id with
  | some item =>
      (some item.testcase,
        { m with map := mapModify m.map id (fun it => { it with testcase := tc }) })
  | none => (none, m)

/-- `TestcaseStorageMap::remove` (linked variant): `map.remove`, then
`remove_key`, then splice the linked list (the source `unwrap`s the
neighbour lookups; the model updates the neighbour when present). -/
def remove (m : TestcaseStorageMap τ) (id : Nat) :
    Option τ × TestcaseStorageMap τ :=
  match mapGet m.map id with
  | some item =>
      let m1 := { m with map := mapDrop m.map id }
      let m2 := m1.remove_key id
      let m3 :=
        match item.prev with
        | some p =>
            { m2 with map := mapModify m2.map p (fun it => { it with next := item.next }) }
        | none => { m2 with first_id := item.next }
      let m4 :=
        match item.next with
        | some n =>
            { m3 with map := mapModify m3.map n (fun it => { it with prev := item.prev }) }
        | none => { m3 with last_id := item.prev }
      (some item.testcase, m4)
  | none => (none, m)

/-- `TestcaseStorageMap::get` (linked variant). -/
def get (m : TestcaseStorageMap τ) (id : Nat) : Option τ :=
  (mapGet m.map id).map TestcaseStorageItem.testcase

/-- `TestcaseStorageMap::next` (linked variant): the stored `next` link. -/
def next (m : TestcaseStorageMap τ) (id : Nat) : Option Nat :=
  match mapGet m.map id with
  | some item => item.next
  | none => none

/-- `TestcaseStorageMap::prev` (linked variant): the stored `prev` link. -/
def prev (m : TestcaseStorageMap τ) (id : Nat) : Option Nat :=
  match mapGet m.map id with
  | some item => item.prev
  | none => none

/-- `TestcaseStorageMap::first` (linked variant). -/
def first (m : TestcaseStorageMap τ) : Option Nat := m.first_id

/-- `TestcaseStorageMap::last` (linked variant). -/
def last (m : TestcaseStorageMap τ) : Option Nat := m.last_id

/-- `TestcaseStorageMap::new`. -/
def new : TestcaseStorageMap τ := ⟨[], [], none, none⟩

/-- The common body of `insert_inner` / `insert_inner_with_id` (linked
variant) once the target partition has been chosen: update the old tail's
`next` link, set the sentinels, insert the key and the new item. -/
def insertItem (m : TestcaseStorageMap τ) (id : Nat) (tc : τ) :
    TestcaseStorageMap τ :=
  let pm :=
    match m.last_id with
    | some lastId =>
        (some lastId,
          { m with map := mapModify m.map lastId (fun it => { it with next := some id }) })
    | none => (none, m)
  let m1 := pm.2
  let m2 := if m1.first_id.isNone then { m1 with first_id := some id } else m1
  let m3 := { m2 with last_id := some id }
  let m4 := m3.insert_key id
  { m4 with map := mapInsert m4.map id ⟨tc, pm.1, none⟩ }

end TestcaseStorageMap

/-- `TestcaseStorage<I>`: the enabled and disabled partitions plus the shared
progressive id counter. -/
structure TestcaseStorage (τ : Type) where
  enabled : TestcaseStorageMap τ
  disabled : TestcaseStorageMap τ
  progressive_id : Nat
deriving DecidableEq, Repr

namespace TestcaseStorage

/-- `TestcaseStorage::new`. -/
def new : TestcaseStorage τ := ⟨TestcaseStorageMap.new, TestcaseStorageMap.new, 0⟩

/-- `TestcaseStorage::peek_free_id`. -/
def peek_free_id (s : TestcaseStorage τ) : Nat := s.progressive_id

/-- `TestcaseStorage::insert_inner` (linked variant): issue the progressive
id, bump the counter, append the item to the chosen partition. -/
def insert_inner (s : TestcaseStorage τ) (tc : τ) (is_disabled : Bool) :
    Nat × TestcaseStorage τ :=
  let id := s.progressive_id
  let s1 := { s with progressive_id := s.progressive_id + 1 }
  if is_disabled then
    (id, { s1 with disabled := s1.disabled.insertItem id tc })
  else
    (id, { s1 with enabled := s1.enabled.insertItem id tc })

/-- `TestcaseStorage::insert`. -/
def insert (s : TestcaseStorage τ) (tc : τ) : Nat × TestcaseStorage τ :=
  s.insert_inner tc false

/-- `TestcaseStorage::insert_disabled`. -/
def insert_disabled (s : TestcaseStorage τ) (tc : τ) : Nat × TestcaseStorage τ :=
  s.insert_inner tc true

/-- `TestcaseStorage::insert_inner_with_id` (linked variant): fail with an
illegal-state error when `progressive_id < id`, otherwise append the item to
the chosen partition under the given id. -/
def insert_inner_with_id (s : TestcaseStorage τ) (tc : τ) (is_disabled : Bool)
    (id : Nat) : Except Error Unit × TestcaseStorage τ :=
  if s.progressive_id < id then
    (Except.error (Error.illegalState illegalStateMsg), s)
  else if is_disabled then
    (Except.ok (), { s with disabled := s.disabled.insertItem id tc })
  else
    (Except.ok (), { s with enabled := s.enabled.insertItem id tc })

end TestcaseStorage

/-- `InMemoryCorpus<I>`: the storage plus the scheduler cursor. -/
structure InMemoryCorpus (τ : Type) where
  storage : TestcaseStorage τ
  current : Option Nat
deriving DecidableEq, Repr

namespace InMemoryCorpus

/-- `InMemoryCorpus::new`. -/
def new : InMemoryCorpus τ := ⟨TestcaseStorage.new, none⟩

/-- `Corpus::count`: number of enabled entries (`map.len()`). -/
def count (c : InMemoryCorpus τ) : Nat := c.storage.enabled.map.length

/-- `Corpus::count_disabled`. -/
def count_disabled (c : InMemoryCorpus τ) : Nat := c.storage.disabled.map.length

/-- `Corpus::count_all`: saturating sum of the two lengths. -/
def count_all (c : InMemoryCorpus τ) : Nat :=
  satAdd c.storage.enabled.map.length c.storage.disabled.map.length

/-- `Corpus::add`: always succeeds, returning the fresh id. -/
def add (c : InMemoryCorpus τ) (tc : τ) : Nat × InMemoryCorpus τ :=
  let r := c.storage.insert tc
  (r.1, { c with storage := r.2 })

/-- `Corpus::add_disabled`. -/
def add_disabled (c : InMemoryCorpus τ) (tc : τ) : Nat × InMemoryCorpus τ :=
  let r := c.storage.insert_disabled tc
  (r.1, { c with storage := r.2 })

/-- `Corpus::replace`: delegate to the enabled partition, mapping the `None`
answer to a key-not-found error. -/
def replace (c : InMemoryCorpus τ) (id : Nat) (tc : τ) :
    Except Error τ × InMemoryCorpus τ :=
  match c.storage.enabled.replace id tc with
  | (some old, en') =>
      (Except.ok old, { c with storage := { c.storage with enabled := en' } })
  | (none, en') =>
      (Except.error (Error.keyNotFound (notFoundReplaceMsg id)),
        { c with storage := { c.storage with enabled := en' } })

/-- `Corpus::remove`: try the enabled partition first, then the disabled
one; `x.take()` on the removed cell is the identity in the value model. -/
def remove (c : InMemoryCorpus τ) (id : Nat) :
    Except Error τ × InMemoryCorpus τ :=
  match c.storage.enabled.remove id with
  | (some tc, en') =>
      (Except.ok tc, { c with storage := { c.storage with enabled := en' } })
  | (none, _) =>
      match c.storage.disabled.remove id with
      | (some tc, dis') =>
          (Except.ok tc, { c with storage := { c.storage with disabled := dis' } })
      | (none, _) =>
          (Except.error (Error.keyNotFound (notFoundMsg id)), c)

/-- `Corpus::get`: enabled partition only. -/
def get (c : InMemoryCorpus τ) (id : Nat) : Except Error τ :=
  match c.storage.enabled.get id with
  | some tc => Except.ok tc
  | none => Except.error (Error.keyNotFound (notFoundMsg id))

/-- `Corpus::get_from_all`: enabled first, then disabled. -/
def get_from_all (c : InMemoryCorpus τ) (id : Nat) : Except Error τ :=
  match c.storage.enabled.get id with
  | some tc => Except.ok tc
  | none =>
      match c.storage.disabled.get id with
      | some tc => Except.ok tc
      | none => Except.error (Error.keyNotFound (notFoundMsg id))

/-- `Corpus::next`. -/
def next (c : InMemoryCorpus τ) (id : Nat) : Option Nat :=
  c.storage.enabled.next id

/-- `Corpus::prev`. -/
def prev (c : InMemoryCorpus τ) (id : Nat) : Option Nat :=
  c.storage.enabled.prev id

/-- `Corpus::first`. -/
def first (c : InMemoryCorpus τ) : Option Nat := c.storage.enabled.first

/-- `Corpus::last`. -/
def last (c : InMemoryCorpus τ) : Option Nat := c.storage.enabled.last

/-- `Corpus::peek_free_id`. -/
def peek_free_id (c : InMemoryCorpus τ) : Nat := c.storage.peek_free_id

/-- `Corpus::nth`: index into the enabled `keys` vector.  Out-of-range
indexing panics in the source; the claims only exercise in-range indices,
where `getD` agrees with the source. -/
def nth (c : InMemoryCorpus τ) (n : Nat) : Nat :=
  c.storage.enabled.keys.getD n 0

/-- `EnableDisableCorpus::disable` for `InMemoryCorpus`: remove from the
enabled partition and reinsert into the disabled one under the same id. -/
def disable (c : InMemoryCorpus τ) (id : Nat) :
    Except Error Unit × InMemoryCorpus τ :=
  match c.storage.enabled.remove id with
  | (some tc, en') =>
      let st1 := { c.storage with enabled := en' }
      let r := st1.insert_inner_with_id tc true id
      (r.1, { c with storage := r.2 })
  | (none, _) =>
      (Except.error (Error.keyNotFound (notFoundEnabledMsg id)), c)

/-- `EnableDisableCorpus::enable` for `InMemoryCorpus`: remove from the
disabled partition and reinsert into the enabled one under the same id. -/
def enable (c : InMemoryCorpus τ) (id : Nat) :
    Except Error Unit × InMemoryCorpus τ :=
  match c.storage.disabled.remove id with
  | (some tc, dis') =>
      let st1 := { c.storage with disabled := dis' }
      let r := st1.insert_inner_with_id tc false id
      (r.1, { c with storage := r.2 })
  | (none, _) =>
      (Except.error (Error.keyNotFound (notFoundDisabledMsg id)), c)

end InMemoryCorpus

/-- `BTreeMap::insert` modelled on the sorted association list: sorted
insertion, overwriting the value when the key is already present. -/
def btInsert (m : List (Nat × τ)) (k : Nat) (v : τ) : List (Nat × τ) :=
  match m with
  | [] => [(k, v)]
  | p :: rest =>
    if k < p.1 then (k, v) :: p :: rest
    else if k = p.1 then (k, v) :: rest
    else p :: btInsert rest k v

/-- `TestcaseStorageMap<I>` in the `corpus_btreemap` configuration: sorted
map from id to testcase plus the sorted `keys` vector (no linked list). -/
structure BtTestcaseStorageMap (τ : Type) where
  map : List (Nat × τ)
  keys : List Nat
deriving DecidableEq, Repr

namespace BtTestcaseStorageMap

/-- `TestcaseStorageMap::insert_key` (same code as the linked variant). -/
def insert_key (m : BtTestcaseStorageMap τ) (id : Nat) : BtTestcaseStorageMap τ :=
  { m with keys := insertKey m.keys id }

/-- `TestcaseStorageMap::remove_key` (same code as the linked variant). -/
def remove_key (m : BtTestcaseStorageMap τ) (id : Nat) : BtTestcaseStorageMap τ :=
  { m with keys := removeKey m.keys id }

/-- `TestcaseStorageMap::replace` (`corpus_btreemap` variant): `get_mut`
then `RefCell::replace`. -/
def replace (m : BtTestcaseStorageMap τ) (id : Nat) (tc : τ) :
    Option τ × BtTestcaseStorageMap τ :=
  match mapGet m.map id with
  | some old => (some old, { m with map := mapModify m.map id (fun _ => tc) })
  | none => (none, m)

/-- `TestcaseStorageMap::remove` (`corpus_btreemap` variant): `remove_key`
then `BTreeMap::remove`, which returns the removed value. -/
def remove (m : BtTestcaseStorageMap τ) (id : Nat) :
    Option τ × BtTestcaseStorageMap τ :=
  let m1 := m.remove_key id
  (mapGet m1.map id, { m1 with map := mapDrop m1.map id })

/-- `TestcaseStorageMap::get` (`corpus_btreemap` variant). -/
def get (m : BtTestcaseStorageMap τ) (id : Nat) : Option τ :=
  mapGet m.map id

/-- `TestcaseStorageMap::next` (`corpus_btreemap` variant): iterate the range
`[id, ∞)` of the sorted map; if its first key is not `id` the id is absent
and the answer is `None`, otherwise the second key of the range is the
answer.  On the sorted-list model the range is a `filter`. -/
def next (m : BtTestcaseStorageMap τ) (id : Nat) : Option Nat :=
  match m.map.filter (fun p => decide (id ≤ p.1)) with
  | [] => none
  | p :: rest => if id ≠ p.1 then none else rest.head?.map Prod.fst

/-- `TestcaseStorageMap::prev` (`corpus_btreemap` variant): iterate the range
`(-∞, id]` backwards; if its last key is not `id` the id is absent, otherwise
the second key from the back is the answer. -/
def prev (m : BtTestcaseStorageMap τ) (id : Nat) : Option Nat :=
  match (m.map.filter (fun p => decide (p.1 ≤ id))).getLast? with
  | none => none
  | some p =>
      if id ≠ p.1 then none
      else ((m.map.filter (fun p => decide (p.1 ≤ id))).dropLast).getLast?.map Prod.fst

/-- `TestcaseStorageMap::first` (`corpus_btreemap` variant): smallest key. -/
def first (m : BtTestcaseStorageMap τ) : Option Nat :=
  m.map.head?.map Prod.fst

/-- `TestcaseStorageMap::last` (`corpus_btreemap` variant): largest key. -/
def last (m : BtTestcaseStorageMap τ) : Option Nat :=
  m.map.getLast?.map Prod.fst

/-- `TestcaseStorageMap::new` (`corpus_btreemap` variant). -/
def new : BtTestcaseStorageMap τ := ⟨[], []⟩

end BtTestcaseStorageMap

/-- `TestcaseStorage<I>` in the `corpus_btreemap` configuration. -/
structure BtTestcaseStorage (τ : Type) where
  enabled : BtTestcaseStorageMap τ
  disabled : BtTestcaseStorageMap τ
  progressive_id : Nat
deriving DecidableEq, Repr

namespace BtTestcaseStorage

/-- `TestcaseStorage::new` (`corpus_btreemap` variant). -/
def new : BtTestcaseStorage τ := ⟨BtTestcaseStorageMap.new, BtTestcaseStorageMap.new, 0⟩

/-- `TestcaseStorage::peek_free_id` (`corpus_btreemap` variant). -/
def peek_free_id (s : BtTestcaseStorage τ) : Nat := s.progressive_id

/-- `TestcaseStorage::insert_inner` (`corpus_btreemap` variant). -/
def insert_inner (s : BtTestcaseStorage τ) (tc : τ) (is_disabled : Bool) :
    Nat × BtTestcaseStorage τ :=
  let id := s.progressive_id
  let s1 := { s with progressive_id := s.progressive_id + 1 }
  if is_disabled then
    (id, { s1 with disabled :=
      { map := btInsert (s1.disabled.insert_key id).map id tc,
        keys := (s1.disabled.insert_key id).keys } })
  else
    (id, { s1 with enabled :=
      { map := btInsert (s1.enabled.insert_key id).map id tc,
        keys := (s1.enabled.insert_key id).keys } })

/-- `TestcaseStorage::insert` (`corpus_btreemap` variant). -/
def insert (s : BtTestcaseStorage τ) (tc : τ) : Nat × BtTestcaseStorage τ :=
  s.insert_inner tc false

/-- `TestcaseStorage::insert_disabled` (`corpus_btreemap` variant). -/
def insert_disabled (s : BtTestcaseStorage τ) (tc : τ) : Nat × BtTestcaseStorage τ :=
  s.insert_inner tc true

/-- `TestcaseStorage::insert_inner_with_id` (`corpus_btreemap` variant). -/
def insert_inner_with_id (s : BtTestcaseStorage τ) (tc : τ) (is_disabled : Bool)
    (id : Nat) : Except Error Unit × BtTestcaseStorage τ :=
  if s.progressive_id < id then
    (Except.error (Error.illegalState illegalStateMsg), s)
  else if is_disabled then
    (Except.ok (), { s with disabled :=
      { map := btInsert (s.disabled.insert_key id).map id tc,
        keys := (s.disabled.insert_key id).keys } })
  else
    (Except.ok (), { s with enabled :=
      { map := btInsert (s.enabled.insert_key id).map id tc,
        keys := (s.enabled.insert_key id).keys } })

end BtTestcaseStorage

/-- `InMemoryCorpus<I>` built with the `corpus_btreemap` feature (the
`Corpus` implementation is the same source text, delegating to the btreemap
storage). -/
structure BtInMemoryCorpus (τ : Type) where
  storage : BtTestcaseStorage τ
  current : Option Nat
deriving DecidableEq, Repr

namespace BtInMemoryCorpus

/-- `InMemoryCorpus::new` (`corpus_btreemap` variant). -/
def new : BtInMemoryCorpus τ := ⟨BtTestcaseStorage.new, none⟩

/-- `Corpus::count` (`corpus_btreemap` variant). -/
def count (c : BtInMemoryCorpus τ) : Nat := c.storage.enabled.map.length

/-- `Corpus::count_disabled` (`corpus_btreemap` variant). -/
def count_disabled (c : BtInMemoryCorpus τ) : Nat := c.storage.disabled.map.length

/-- `Corpus::count_all` (`corpus_btreemap` variant). -/
def count_all (c : BtInMemoryCorpus τ) : Nat :=
  satAdd c.storage.enabled.map.length c.storage.disabled.map.length

/-- `Corpus::add` (`corpus_btreemap` variant). -/
def add (c : BtInMemoryCorpus τ) (tc : τ) : Nat × BtInMemoryCorpus τ :=
  let r := c.storage.insert tc
  (r.1, { c with storage := r.2 })

/-- `Corpus::add_disabled` (`corpus_btreemap` variant). -/
def add_disabled (c : BtInMemoryCorpus τ) (tc : τ) : Nat × BtInMemoryCorpus τ :=
  let r := c.storage.insert_disabled tc
  (r.1, { c with storage := r.2 })

/-- `Corpus::replace` (`corpus_btreemap` variant). -/
def replace (c : BtInMemoryCorpus τ) (id : Nat) (tc : τ) :
    Except Error τ × BtInMemoryCorpus τ :=
  match c.storage.enabled.replace id tc with
  | (some old, en') =>
      (Except.ok old, { c with storage := { c.storage with enabled := en' } })
  | (none, en') =>
      (Except.error (Error.keyNotFound (notFoundReplaceMsg id)),
        { c with storage := { c.storage with enabled := en' } })

/-- `Corpus::remove` (`corpus_btreemap` variant). -/
def remove (c : BtInMemoryCorpus τ) (id : Nat) :
    Except Error τ × BtInMemoryCorpus τ :=
  match c.storage.enabled.remove id with
  | (some tc, en') =>
      (Except.ok tc, { c with storage := { c.storage with enabled := en' } })
  | (none, _) =>
      match c.storage.disabled.remove id with
      | (some tc, dis') =>
          (Except.ok tc, { c with storage := { c.storage with disabled := dis' } })
      | (none, _) =>
          (Except.error (Error.keyNotFound (notFoundMsg id)), c)

/-- `Corpus::get` (`corpus_btreemap` variant). -/
def get (c : BtInMemoryCorpus τ) (id : Nat) : Except Error τ :=
  match c.storage.enabled.get id with
  | some tc => Except.ok tc
  | none => Except.error (Error.keyNotFound (notFoundMsg id))

/-- `Corpus::get_from_all` (`corpus_btreemap` variant). -/
def get_from_all (c : BtInMemoryCorpus τ) (id : Nat) : Except Error τ :=
  match c.storage.enabled.get id with
  | some tc => Except.ok tc
  | none =>
      match c.storage.disabled.get id with
      | some tc => Except.ok tc
      | none => Except.error (Error.keyNotFound (notFoundMsg id))

/-- `Corpus::next` (`corpus_btreemap` variant). -/
def next (c : BtInMemoryCorpus τ) (id : Nat) : Option Nat :=
  c.storage.enabled.next id

/-- `Corpus::prev` (`corpus_btreemap` variant). -/
def prev (c : BtInMemoryCorpus τ) (id : Nat) : Option Nat :=
  c.storage.enabled.prev id

/-- `Corpus::first` (`corpus_btreemap` variant). -/
def first (c : BtInMemoryCorpus τ) : Option Nat := c.storage.enabled.first

/-- `Corpus::last` (`corpus_btreemap` variant). -/
def last (c : BtInMemoryCorpus τ) : Option Nat := c.storage.enabled.last

/-- `Corpus::peek_free_id` (`corpus_btreemap` variant). -/
def peek_free_id (c : BtInMemoryCorpus τ) : Nat := c.storage.peek_free_id

/-- `Corpus::nth` (`corpus_btreemap` variant). -/
def nth (c : BtInMemoryCorpus τ) (n : Nat) : Nat :=
  c.storage.enabled.keys.getD n 0

/-- `EnableDisableCorpus::disable` (`corpus_btreemap` variant; same source
text as the linked variant). -/
def disable (c : BtInMemoryCorpus τ) (id : Nat) :
    Except Error Unit × BtInMemoryCorpus τ :=
  match c.storage.enabled.remove id with
  | (some tc, en') =>
      let st1 := { c.storage with enabled := en' }
      let r := st1.insert_inner_with_id tc true id
      (r.1, { c with storage := r.2 })
  | (none, _) =>
      (Except.error (Error.keyNotFound (notFoundEnabledMsg id)), c)

/-- `EnableDisableCorpus::enable` (`corpus_btreemap` variant). -/
def enable (c : BtInMemoryCorpus τ) (id : Nat) :
    Except Error Unit × BtInMemoryCorpus τ :=
  match c.storage.disabled.remove id with
  | (some tc, dis') =>
      let st1 := { c.storage with disabled := dis' }
      let r := st1.insert_inner_with_id tc false id
      (r.1, { c with storage := r.2 })
  | (none, _) =>
      (Except.error (Error.keyNotFound (notFoundDisabledMsg id)), c)

end BtInMemoryCorpus

/-- A state-changing corpus operation, applied through the public
`Corpus` / `EnableDisableCorpus` interface. -/
inductive CorpusOp (τ : Type) where
  | add (tc : τ)
  | addDisabled (tc : τ)
  | removeOp (id : Nat)
  | replaceOp (id : Nat) (tc : τ)
  | enableOp (id : Nat)
  | disableOp (id : Nat)
deriving DecidableEq, Repr

deriving instance DecidableEq for Except

/-- The value answered by one corpus operation. -/
inductive OpOut (τ : Type) where
  | newId (i : Nat)
  | unitRes (r : Except Error Unit)
  | tcRes (r : Except Error τ)
deriving DecidableEq, Repr

/-- Whether an operation goes through `insert_inner_with_id` (the
enable/disable reinsertion path). -/
def CorpusOp.usesReinsert : CorpusOp τ → Bool
  | .enableOp _ => true
  | .disableOp _ => true
  | _ => false

/-- One operation on the linked-variant corpus. -/
def stepL (c : InMemoryCorpus τ) : CorpusOp τ → OpOut τ × InMemoryCorpus τ
  | .add tc => let r := c.add tc; (.newId r.1, r.2)
  | .addDisabled tc => let r := c.add_disabled tc; (.newId r.1, r.2)
  | .removeOp id => let r := c.remove id; (.tcRes r.1, r.2)
  | .replaceOp id tc => let r := c.replace id tc; (.tcRes r.1, r.2)
  | .enableOp id => let r := c.enable id; (.unitRes r.1, r.2)
  | .disableOp id => let r := c.disable id; (.unitRes r.1, r.2)

/-- One operation on the btreemap-variant corpus. -/
def stepB (c : BtInMemoryCorpus τ) : CorpusOp τ → OpOut τ × BtInMemoryCorpus τ
  | .add tc => let r := c.add tc; (.newId r.1, r.2)
  | .addDisabled tc => let r := c.add_disabled tc; (.newId r.1, r.2)
  | .removeOp id => let r := c.remove id; (.tcRes r.1, r.2)
  | .replaceOp id tc => let r := c.replace id tc; (.tcRes r.1, r.2)
  | .enableOp id => let r := c.enable id; (.unitRes r.1, r.2)
  | .disableOp id => let r := c.disable id; (.unitRes r.1, r.2)

/-- Run a history of operations on the linked-variant corpus, collecting the
answers. -/
def execL (c : InMemoryCorpus τ) : List (CorpusOp τ) → InMemoryCorpus τ × List (OpOut τ)
  | [] => (c, [])
  | op :: ops =>
      let r := stepL c op
      let rest := execL r.2 ops
      (rest.1, r.1 :: rest.2)

/-- Run a history of operations on the btreemap-variant corpus, collecting
the answers. -/
def execB (c : BtInMemoryCorpus τ) : List (CorpusOp τ) → BtInMemoryCorpus τ × List (OpOut τ)
  | [] => (c, [])
  | op :: ops =>
      let r := stepB c op
      let rest := execB r.2 ops
      (rest.1, r.1 :: rest.2)

/-- Run a history of operations on the linked-variant corpus (state only). -/
def runL (c : InMemoryCorpus τ) (ops : List (CorpusOp τ)) : InMemoryCorpus τ :=
  (execL c ops).1

/-- Run a history of operations on the btreemap corpus (state only). -/
def runB (c : BtInMemoryCorpus τ) (ops : List (CorpusOp τ)) : BtInMemoryCorpus τ :=
  (execB c ops).1

/-- Enabled-partition navigation order of the linked corpus: follow `first`
and then `next` links, with fuel to keep the traversal total. -/
def traverseNext (m : TestcaseStorageMap τ) : Nat → Option Nat → List Nat
  | 0, _ => []
  | _, none => []
  | fuel + 1, some id => id :: traverseNext m fuel (m.next id)

/-- The enabled navigation order (first/next traversal) of a linked-variant
corpus. -/
def enabledOrder (c : InMemoryCorpus τ) : List Nat :=
  traverseNext c.storage.enabled c.count c.storage.enabled.first

/-- Decidable check that every key of the association-list map is below `n`
(all issued ids are below the progressive counter). -/
def keysBelowB (m : List (Nat × α)) (n : Nat) : Bool :=
  m.all (fun p => decide (p.1 < n))

/-- Ghost function: the first element of `ks` greater than `k`; on a sorted
list this is the successor of `k`. -/
def succIn : List Nat → Nat → Option Nat
  | [], _ => none
  | a :: t, k => if k < a then some a else succIn t k

/-- Ghost function: the last element of `ks` smaller than `k`; on a sorted
list this is the predecessor of `k`. -/
def predIn : List Nat → Nat → Option Nat
  | [], _ => none
  | a :: t, k =>
    if a < k then
      match predIn t k with
      | some p => some p
      | none => some a
    else predIn t k

/-- Representation relation between a linked-variant storage map and the
canonical sorted association list `E` of its entries: the `keys` vector and
sentinels mirror `E`, every stored item carries the sorted-order neighbour
links, and the hash map has exactly the entries of `E`. -/
def MapRel (L : TestcaseStorageMap τ) (E : List (Nat × τ)) : Prop :=
  L.keys = E.map Prod.fst ∧
  L.first_id = (E.map Prod.fst).head? ∧
  L.last_id = (E.map Prod.fst).getLast? ∧
  (∀ k, mapGet L.map k =
    (mapGet E k).map (fun v =>
      ⟨v, predIn (E.map Prod.fst) k, succIn (E.map Prod.fst) k⟩)) ∧
  (L.map.map Prod.fst).Nodup ∧
  L.map.length = E.length

/-- Well-formedness of a btreemap-variant storage map: the map is sorted by
key and the `keys` vector mirrors the map's key sequence. -/
def BtWF (m : BtTestcaseStorageMap τ) : Prop :=
  (m.map.map Prod.fst).Pairwise (· < ·) ∧ m.keys = m.map.map Prod.fst

/-- Simulation relation between a linked-variant corpus and a
btreemap-variant corpus: the btree entries are the canonical entry list of
the linked map, partition-wise, the counters agree, all keys are below the
counter, and the cursors agree. -/
def CorpusRel (L : InMemoryCorpus τ) (B : BtInMemoryCorpus τ) : Prop :=
  MapRel L.storage.enabled B.storage.enabled.map ∧
  MapRel L.storage.disabled B.storage.disabled.map ∧
  BtWF B.storage.enabled ∧
  BtWF B.storage.disabled ∧
  L.storage.progressive_id = B.storage.progressive_id ∧
  (∀ k ∈ B.storage.enabled.map.map Prod.fst, k < B.storage.progressive_id) ∧
  (∀ k ∈ B.storage.disabled.map.map Prod.fst, k < B.storage.progressive_id) ∧
  L.current = B.current

/-- The observations the spec calls identical between the two variants:
navigation answers, lookups, counts and the keys vectors. -/
def SameObs (L : InMemoryCorpus τ) (B : BtInMemoryCorpus τ) : Prop :=
  (∀ id, L.next id = B.next id) ∧
  (∀ id, L.prev id = B.prev id) ∧
  L.first = B.first ∧
  L.last = B.last ∧
  (∀ id, L.get id = B.get id) ∧
  (∀ id, L.get_from_all id = B.get_from_all id) ∧
  L.count = B.count ∧
  L.count_disabled = B.count_disabled ∧
  L.count_all = B.count_all ∧
  L.storage.enabled.keys = B.storage.enabled.keys ∧
  L.storage.disabled.keys = B.storage.disabled.keys

/-- Well-formedness of a linked-variant storage used by the invariant
claims: all keys of both partitions are below the progressive counter, and
no id is present in both partitions at once. -/
def StorageWF (s : TestcaseStorage τ) : Prop :=
  (∀ k, (mapGet s.enabled.map k).isSome → k < s.progressive_id) ∧
  (∀ k, (mapGet s.disabled.map k).isSome → k < s.progressive_id) ∧
  (∀ k, (mapGet s.enabled.map k).isSome → mapGet s.disabled.map k = none)

/-! Basic lemmas about the association-list map model. -/

theorem mapGet_eq_none_iff (m : List (Nat × α)) (k : Nat) :
    mapGet m k = none ↔ k ∉ m.map Prod.fst := by
  induction m with
  | nil => simp [mapGet]
  | cons p rest ih =>
    simp only [mapGet, List.map_cons, List.mem_cons]
    by_cases h : p.1 = k
    · subst h; simp
    · rw [if_neg h, ih]
      constructor
      · intro hr hmem
        rcases hmem with h1 | h2
        · exact h h1.symm
        · exact hr h2
      · intro hni hm
        exact hni (Or.inr hm)

theorem mapGet_isSome_iff (m : List (Nat × α)) (k : Nat) :
    (mapGet m k).isSome ↔ k ∈ m.map Prod.fst := by
  rw [Option.isSome_iff_ne_none, ne_eq, mapGet_eq_none_iff, not_not]

theorem mapGet_mapDrop_self (m : List (Nat × α)) (k : Nat) :
    mapGet (mapDrop m k) k = none := by
  induction m with
  | nil => rfl
  | cons p rest ih =>
    by_cases hpk : p.1 = k
    · simpa [mapDrop, hpk] using ih
    · simpa [mapDrop, mapGet, hpk] using ih

theorem mapGet_mapDrop_ne (m : List (Nat × α)) (k j : Nat) (hj : j ≠ k) :
    mapGet (mapDrop m k) j = mapGet m j := by
  induction m with
  | nil => rfl
  | cons p rest ih =>
    by_cases hpk : p.1 = k <;> by_cases hpj : p.1 = j <;>
      simp_all [mapDrop, mapGet]

theorem mapGet_mapDrop (m : List (Nat × α)) (k j : Nat) :
    mapGet (mapDrop m k) j = if j = k then none else mapGet m j := by
  by_cases hj : j = k
  · subst hj; simp [mapGet_mapDrop_self]
  · simp [hj, mapGet_mapDrop_ne m k j hj]

theorem mapGet_mapModify (m : List (Nat × α)) (k j : Nat) (f : α → α) :
    mapGet (mapModify m k f) j =
      if j = k then (mapGet m k).map f else mapGet m j := by
  induction m with
  | nil => simp [mapModify, mapGet]
  | cons p rest ih =>
    by_cases hpk : p.1 = k <;> by_cases hpj : p.1 = j <;>
      by_cases hjk : j = k <;>
      simp_all [mapModify, mapGet]

theorem keysOf_mapModify (m : List (Nat × α)) (k : Nat) (f : α → α) :
    (mapModify m k f).map Prod.fst = m.map Prod.fst := by
  induction m with
  | nil => rfl
  | cons p rest ih =>
    simp only [mapModify, List.map_cons]
    by_cases hpk : p.1 = k
    · rw [if_pos hpk, ih]
    · rw [if_neg hpk, ih]

theorem length_mapModify (m : List (Nat × α)) (k : Nat) (f : α → α) :
    (mapModify m k f).length = m.length := by
  induction m with
  | nil => rfl
  | cons p rest ih => simp only [mapModify, List.length_cons, ih]

theorem mapGet_append (m₁ m₂ : List (Nat × α)) (j : Nat) :
    mapGet (m₁ ++ m₂) j =
      match mapGet m₁ j with
      | some v => some v
      | none => mapGet m₂ j := by
  induction m₁ with
  | nil => simp [mapGet]
  | cons p rest ih =>
    by_cases hpj : p.1 = j
    · simp [mapGet, hpj]
    · simp [mapGet, hpj, ih]

theorem mapGet_mapSet (m : List (Nat × α)) (k j : Nat) (v : α) :
    mapGet (mapSet m k v) j =
      if j = k then (mapGet m k).map (fun _ => v) else mapGet m j := by
  induction m with
  | nil => simp [mapSet, mapGet]
  | cons p rest ih =>
    by_cases hpk : p.1 = k <;> by_cases hpj : p.1 = j <;>
      by_cases hjk : j = k <;>
      simp_all [mapSet, mapGet]

theorem mapGet_mapInsert (m : List (Nat × α)) (k j : Nat) (v : α) :
    mapGet (mapInsert m k v) j = if j = k then some v else mapGet m j := by
  unfold mapInsert
  by_cases hs : (mapGet m k).isSome
  · rw [if_pos hs, mapGet_mapSet]
    by_cases hjk : j = k
    · rcases Option.isSome_iff_exists.mp hs with ⟨w, hw⟩
      simp [hjk, hw]
    · simp [hjk]
  · rw [if_neg hs, mapGet_append]
    by_cases hjk : j = k
    · subst hjk
      rw [Option.not_isSome_iff_eq_none] at hs
      simp [hs, mapGet]
    · have hkj : ¬ (k = j) := fun h => hjk h.symm
      by_cases hg : (mapGet m j).isSome
      · rcases Option.isSome_iff_exists.mp hg with ⟨w, hw⟩
        simp [hjk, hw]
      · rw [Option.not_isSome_iff_eq_none] at hg
        simp [hjk, hg, mapGet, hkj]

theorem keysOf_mapDrop (m : List (Nat × α)) (k : Nat) :
    (mapDrop m k).map Prod.fst = (m.map Prod.fst).filter (fun x => decide (x ≠ k)) := by
  induction m with
  | nil => rfl
  | cons p rest ih =>
    by_cases hpk : p.1 = k
    · simp [mapDrop, hpk, ih]
    · simp [mapDrop, hpk, ih]

theorem mapDrop_eq_self_of_get_none (m : List (Nat × α)) (k : Nat)
    (h : mapGet m k = none) : mapDrop m k = m := by
  induction m with
  | nil => rfl
  | cons p rest ih =>
    by_cases hpk : p.1 = k
    · simp [mapGet, hpk] at h
    · have h' : mapGet rest k = none := by simpa [mapGet, hpk] using h
      simp [mapDrop, hpk, ih h']

theorem length_mapDrop_of_nodup (m : List (Nat × α)) (k : Nat) (v : α)
    (hn : (m.map Prod.fst).Nodup) (h : mapGet m k = some v) :
    (mapDrop m k).length + 1 = m.length := by
  induction m with
  | nil => simp [mapGet] at h
  | cons p rest ih =>
    rw [List.map_cons, List.nodup_cons] at hn
    by_cases hpk : p.1 = k
    · have hk : k ∉ rest.map Prod.fst := hpk ▸ hn.1
      have hnone : mapGet rest k = none := (mapGet_eq_none_iff rest k).mpr hk
      simp [mapDrop, hpk, mapDrop_eq_self_of_get_none rest k hnone]
    · have h' : mapGet rest k = some v := by simpa [mapGet, hpk] using h
      simp only [mapDrop, if_neg hpk, List.length_cons]
      have := ih hn.2 h'
      omega

theorem nodup_keysOf_mapDrop (m : List (Nat × α)) (k : Nat)
    (hn : (m.map Prod.fst).Nodup) : ((mapDrop m k).map Prod.fst).Nodup := by
  rw [keysOf_mapDrop]
  exact hn.filter _

theorem length_mapInsert_of_get_none (m : List (Nat × α)) (k : Nat) (v : α)
    (h : mapGet m k = none) : (mapInsert m k v).length = m.length + 1 := by
  unfold mapInsert
  simp [h]

theorem length_mapSet (m : List (Nat × α)) (k : Nat) (v : α) :
    (mapSet m k v).length = m.length := by
  induction m with
  | nil => rfl
  | cons p rest ih => simp only [mapSet, List.length_cons, ih]

theorem length_mapInsert_of_get_some (m : List (Nat × α)) (k : Nat) (v w : α)
    (h : mapGet m k = some w) : (mapInsert m k v).length = m.length := by
  unfold mapInsert
  simp [h, length_mapSet]

theorem keysOf_mapInsert_of_get_none (m : List (Nat × α)) (k : Nat) (v : α)
    (h : mapGet m k = none) :
    (mapInsert m k v).map Prod.fst = m.map Prod.fst ++ [k] := by
  unfold mapInsert
  simp [h]

/-- A concrete one-element corpus (payload type `Nat`) used by witnesses:
id `0` is enabled with payload `5`, nothing is disabled, the counter is `1`. -/
def sampleCorpus : InMemoryCorpus Nat :=
  ⟨⟨⟨[(0, ⟨5, none, none⟩)], [0], some 0, some 0⟩, ⟨[], [], none, none⟩, 1⟩, none⟩

/-! Lemmas about the linked-variant storage-map operations. -/

theorem mapGet_eq_none_of_keysBelowB (m : List (Nat × α)) (n : Nat)
    (h : keysBelowB m n = true) : mapGet m n = none := by
  rw [mapGet_eq_none_iff]
  intro hmem
  rcases List.mem_map.mp hmem with ⟨p, hp, hpn⟩
  have hlt := List.all_eq_true.mp h p hp
  rw [decide_eq_true_eq] at hlt
  omega

theorem lt_of_keysBelowB_of_isSome (m : List (Nat × α)) (n k : Nat)
    (h : keysBelowB m n = true) (hk : (mapGet m k).isSome) : k < n := by
  have hmem := (mapGet_isSome_iff m k).mp hk
  rcases List.mem_map.mp hmem with ⟨p, hp, hpk⟩
  have hlt := List.all_eq_true.mp h p hp
  rw [decide_eq_true_eq] at hlt
  omega

theorem mapGet_insertItem_self (m : TestcaseStorageMap τ) (id : Nat) (tc : τ) :
    mapGet (m.insertItem id tc).map id = some ⟨tc, m.last_id, none⟩ := by
  unfold TestcaseStorageMap.insertItem
  cases h : m.last_id <;>
    simp [h, TestcaseStorageMap.insert_key, apply_ite TestcaseStorageMap.map,
      ite_self, mapGet_mapInsert]

theorem isSome_mapGet_insertItem (m : TestcaseStorageMap τ) (id k : Nat) (tc : τ) :
    (mapGet (m.insertItem id tc).map k).isSome ↔
      k = id ∨ (mapGet m.map k).isSome := by
  unfold TestcaseStorageMap.insertItem
  cases h : m.last_id with
  | none =>
    simp only [TestcaseStorageMap.insert_key, apply_ite TestcaseStorageMap.map,
      mapGet_mapInsert, ite_self]
    by_cases hk : k = id <;> simp [hk]
  | some l =>
    simp only [TestcaseStorageMap.insert_key, apply_ite TestcaseStorageMap.map,
      mapGet_mapInsert, ite_self, mapGet_mapModify]
    by_cases hk : k = id
    · simp [hk]
    · by_cases hl : k = l
      · have hlid : ¬ l = id := hl ▸ hk
        simp [hk, hl, hlid]
      · simp [hk, hl]

theorem remove_fst_eq (m : TestcaseStorageMap τ) (id : Nat) :
    (m.remove id).1 = (mapGet m.map id).map TestcaseStorageItem.testcase := by
  unfold TestcaseStorageMap.remove
  cases hg : mapGet m.map id <;> simp

theorem remove_eq_none (m : TestcaseStorageMap τ) (id : Nat)
    (hg : mapGet m.map id = none) : m.remove id = (none, m) := by
  unfold TestcaseStorageMap.remove
  rw [hg]

theorem replace_eq_none (m : TestcaseStorageMap τ) (id : Nat) (tc : τ)
    (hg : mapGet m.map id = none) : m.replace id tc = (none, m) := by
  unfold TestcaseStorageMap.replace
  rw [hg]

theorem mapGet_remove_self (m : TestcaseStorageMap τ) (id : Nat) :
    mapGet (m.remove id).2.map id = none := by
  unfold TestcaseStorageMap.remove
  cases hg : mapGet m.map id with
  | none => exact hg
  | some item =>
    cases hp : item.prev <;> cases hn : item.next <;>
      · simp only [hp, hn, TestcaseStorageMap.remove_key, mapGet_mapModify,
          mapGet_mapDrop]
        split_ifs <;> (try simp) <;> omega

theorem isSome_mapGet_remove (m : TestcaseStorageMap τ) (id k : Nat) :
    (mapGet (m.remove id).2.map k).isSome ↔
      k ≠ id ∧ (mapGet m.map k).isSome := by
  by_cases hk : k = id
  · subst hk
    simp [mapGet_remove_self]
  · unfold TestcaseStorageMap.remove
    cases hg : mapGet m.map id with
    | none => simp [hk]
    | some item =>
      cases hp : item.prev <;> cases hn : item.next <;>
        · simp only [hp, hn, TestcaseStorageMap.remove_key, mapGet_mapModify,
            mapGet_mapDrop, if_neg hk]
          (try split_ifs) <;> simp_all

theorem isSome_mapGet_replace (m : TestcaseStorageMap τ) (id k : Nat) (tc : τ) :
    (mapGet (m.replace id tc).2.map k).isSome ↔ (mapGet m.map k).isSome := by
  unfold TestcaseStorageMap.replace
  cases hg : mapGet m.map id with
  | none => simp
  | some item =>
    simp only [mapGet_mapModify]
    by_cases hk : k = id <;> simp [hk, hg]

/-! Claim C1. -/

/-- Claim C1, counterexample: the claim says `insert_inner_with_id` fails
whenever `id` is not strictly less than `progressive_id`, in particular that
`id = progressive_id` always fails.  On the fresh storage `progressive_id`
is `0`, yet inserting with `id = 0` succeeds: the source only rejects
`progressive_id < id`. -/
theorem c1_counterexample :
    (TestcaseStorage.new (τ := Unit)).progressive_id = 0 ∧
    ((TestcaseStorage.new (τ := Unit)).insert_inner_with_id () false 0).1 =
      Except.ok () := by
  exact ⟨rfl, rfl⟩

/-- Claim C1, amended: `insert_inner_with_id(testcase, is_disabled, id)`
returns an illegal-state error exactly when `id` is strictly greater than
the current `progressive_id` (so `id = progressive_id` succeeds), and on
error the storage is unchanged. -/
theorem c1_insert_inner_with_id_guard {τ : Type} (s : TestcaseStorage τ)
    (tc : τ) (d : Bool) (id : Nat) :
    (s.progressive_id < id →
      s.insert_inner_with_id tc d id =
        (Except.error (Error.illegalState illegalStateMsg), s)) ∧
    (¬ s.progressive_id < id →
      (s.insert_inner_with_id tc d id).1 = Except.ok ()) := by
  unfold TestcaseStorage.insert_inner_with_id
  constructor
  · intro h
    rw [if_pos h]
  · intro h
    rw [if_neg h]
    cases d
    · rfl
    · rfl

/-- Claim C1, witness for the amended theorem: at the fresh storage, the
guard fires for `id = 1` (strictly greater than the counter `0`) leaving the
state unchanged, and succeeds for `id = 0`. -/
theorem c1_insert_inner_with_id_guard_witness :
    ((TestcaseStorage.new (τ := Unit)).insert_inner_with_id () true 1 =
      (Except.error (Error.illegalState illegalStateMsg), TestcaseStorage.new)) ∧
    (((TestcaseStorage.new (τ := Unit)).insert_inner_with_id () true 0).1 =
      Except.ok ()) :=
  ⟨(c1_insert_inner_with_id_guard TestcaseStorage.new () true 1).1 (by decide),
    (c1_insert_inner_with_id_guard TestcaseStorage.new () true 0).2 (by decide)⟩

/-! Claim C3. -/

/-- Claim C3: adding three testcases to a fresh corpus yields ids `0, 1, 2`
in that navigation order; disabling `1` leaves enabled navigation order
`[0, 2]`; re-enabling `1` yields `[0, 2, 1]`, appended at the end rather than
restored to its original position. -/
theorem c3_disable_enable_order {τ : Type} (a b c : τ) :
    enabledOrder ((((InMemoryCorpus.new (τ := τ)).add a).2.add b).2.add c).2 = [0, 1, 2] ∧
    (((((InMemoryCorpus.new (τ := τ)).add a).2.add b).2.add c).2.disable 1).1 =
      Except.ok () ∧
    enabledOrder (((((InMemoryCorpus.new (τ := τ)).add a).2.add b).2.add c).2.disable 1).2 =
      [0, 2] ∧
    ((((((InMemoryCorpus.new (τ := τ)).add a).2.add b).2.add c).2.disable 1).2.enable 1).1 =
      Except.ok () ∧
    enabledOrder
      ((((((InMemoryCorpus.new (τ := τ)).add a).2.add b).2.add c).2.disable 1).2.enable 1).2 =
      [0, 2, 1] := by
  have h1 : ((InMemoryCorpus.new (τ := τ)).add a).2 =
      ⟨⟨⟨[(0, ⟨a, none, none⟩)], [0], some 0, some 0⟩, ⟨[], [], none, none⟩, 1⟩, none⟩ := rfl
  rw [h1]
  have h2 : (InMemoryCorpus.add
      ⟨⟨⟨[(0, ⟨a, none, none⟩)], [0], some 0, some 0⟩, ⟨[], [], none, none⟩, 1⟩, none⟩ b).2 =
      ⟨⟨⟨[(0, ⟨a, none, some 1⟩), (1, ⟨b, some 0, none⟩)], [0, 1], some 0, some 1⟩,
        ⟨[], [], none, none⟩, 2⟩, none⟩ := rfl
  rw [h2]
  have h3 : (InMemoryCorpus.add
      ⟨⟨⟨[(0, ⟨a, none, some 1⟩), (1, ⟨b, some 0, none⟩)], [0, 1], some 0, some 1⟩,
        ⟨[], [], none, none⟩, 2⟩, none⟩ c).2 =
      ⟨⟨⟨[(0, ⟨a, none, some 1⟩), (1, ⟨b, some 0, some 2⟩), (2, ⟨c, some 1, none⟩)],
          [0, 1, 2], some 0, some 2⟩, ⟨[], [], none, none⟩, 3⟩, none⟩ := rfl
  rw [h3]
  have h4 : InMemoryCorpus.disable
      ⟨⟨⟨[(0, ⟨a, none, some 1⟩), (1, ⟨b, some 0, some 2⟩), (2, ⟨c, some 1, none⟩)],
          [0, 1, 2], some 0, some 2⟩, ⟨[], [], none, none⟩, 3⟩, none⟩ 1 =
      (Except.ok (),
        ⟨⟨⟨[(0, ⟨a, none, some 2⟩), (2, ⟨c, some 0, none⟩)], [0, 2], some 0, some 2⟩,
          ⟨[(1, ⟨b, none, none⟩)], [1], some 1, some 1⟩, 3⟩, none⟩) := rfl
  rw [h4]
  have h5 : InMemoryCorpus.enable
      ⟨⟨⟨[(0, ⟨a, none, some 2⟩), (2, ⟨c, some 0, none⟩)], [0, 2], some 0, some 2⟩,
        ⟨[(1, ⟨b, none, none⟩)], [1], some 1, some 1⟩, 3⟩, none⟩ 1 =
      (Except.ok (),
        ⟨⟨⟨[(0, ⟨a, none, some 2⟩), (2, ⟨c, some 0, some 1⟩), (1, ⟨b, some 2, none⟩)],
            [0, 1, 2], some 0, some 1⟩, ⟨[], [], none, none⟩, 3⟩, none⟩) := rfl
  rw [h5]
  exact ⟨rfl, rfl, rfl, rfl, rfl⟩

/-! Claim C7. -/

/-- Claim C7: the id returned by `add` (and by `add_disabled`) equals the id
previously answered by `peek_free_id` on the same state; `peek_free_id`
itself takes the receiver by shared reference and is embedded as a pure
function of the state, so it cannot change the corpus. -/
theorem c7_peek_free_id {τ : Type} (c : InMemoryCorpus τ) (tc tc' : τ) :
    (c.add tc).1 = c.peek_free_id ∧ (c.add_disabled tc').1 = c.peek_free_id :=
  ⟨rfl, rfl⟩

/-! Claim C9. -/

/-- Claim C9: after `add, add, add, disable 0, enable 0` on the linked
(hash-map) variant, `nth 0` reads the numerically sorted keys vector and
returns `0`, while `first` follows the linked insertion order and returns
`1`: the two navigation views disagree. -/
theorem c9_nth_differs_from_first :
    InMemoryCorpus.nth
      (runL (InMemoryCorpus.new (τ := Unit))
        [CorpusOp.add (), CorpusOp.add (), CorpusOp.add (),
          CorpusOp.disableOp 0, CorpusOp.enableOp 0]) 0 = 0 ∧
    InMemoryCorpus.first
      (runL (InMemoryCorpus.new (τ := Unit))
        [CorpusOp.add (), CorpusOp.add (), CorpusOp.add (),
          CorpusOp.disableOp 0, CorpusOp.enableOp 0]) = some 1 ∧
    some (InMemoryCorpus.nth
      (runL (InMemoryCorpus.new (τ := Unit))
        [CorpusOp.add (), CorpusOp.add (), CorpusOp.add (),
          CorpusOp.disableOp 0, CorpusOp.enableOp 0]) 0) ≠
    InMemoryCorpus.first
      (runL (InMemoryCorpus.new (τ := Unit))
        [CorpusOp.add (), CorpusOp.add (), CorpusOp.add (),
          CorpusOp.disableOp 0, CorpusOp.enableOp 0]) := by
  decide

/-! Claim C10. -/

/-- Claim C10: none of the storage operations (`add`, `add_disabled`,
`remove`, `replace`, `enable`, `disable`) ever touches the scheduler cursor
`current`; in particular removing the id the cursor points to succeeds (when
the id is stored) and leaves the cursor dangling at that id. -/
theorem c10_current_untouched {τ : Type} (c : InMemoryCorpus τ) :
    (∀ op : CorpusOp τ, (stepL c op).2.current = c.current) ∧
    (∀ id, c.current = some id →
      (mapGet c.storage.enabled.map id).isSome →
      (∃ tc, (c.remove id).1 = Except.ok tc) ∧
        (c.remove id).2.current = some id) := by
  have hrem : ∀ id, (c.remove id).2.current = c.current := by
    intro id
    unfold InMemoryCorpus.remove
    rcases h1 : c.storage.enabled.remove id with ⟨o1, en'⟩
    cases o1 with
    | some tc => rfl
    | none =>
      rcases h2 : c.storage.disabled.remove id with ⟨o2, dis'⟩
      cases o2 with
      | some tc => rfl
      | none => rfl
  constructor
  · intro op
    cases op with
    | add tc => rfl
    | addDisabled tc => rfl
    | removeOp id => exact hrem id
    | replaceOp id tc =>
        show (c.replace id tc).2.current = c.current
        unfold InMemoryCorpus.replace
        rcases h1 : c.storage.enabled.replace id tc with ⟨o1, en'⟩
        cases o1 with
        | some tc' => rfl
        | none => rfl
    | enableOp id =>
        show (c.enable id).2.current = c.current
        unfold InMemoryCorpus.enable
        rcases h1 : c.storage.disabled.remove id with ⟨o1, dis'⟩
        cases o1 with
        | some tc' => rfl
        | none => rfl
    | disableOp id =>
        show (c.disable id).2.current = c.current
        unfold InMemoryCorpus.disable
        rcases h1 : c.storage.enabled.remove id with ⟨o1, en'⟩
        cases o1 with
        | some tc' => rfl
        | none => rfl
  · intro id hcur hsome
    refine ⟨?_, by rw [hrem id, hcur]⟩
    have h1 := remove_fst_eq c.storage.enabled id
    rcases Option.isSome_iff_exists.mp hsome with ⟨item, hitem⟩
    unfold InMemoryCorpus.remove
    rcases h2 : c.storage.enabled.remove id with ⟨o1, en'⟩
    rw [h2] at h1
    rw [hitem] at h1
    simp only at h1
    cases o1 with
    | some tc => exact ⟨tc, rfl⟩
    | none => exact absurd h1 (by simp)

/-- Claim C10, witness: a two-element corpus whose cursor points at id `0`;
removing id `0` succeeds and the cursor still reads `some 0` afterwards. -/
theorem c10_current_untouched_witness :
    ((⟨⟨⟨[(0, (⟨7, none, none⟩ : TestcaseStorageItem Nat))], [0], some 0, some 0⟩,
        ⟨[], [], none, none⟩, 1⟩, some 0⟩ : InMemoryCorpus Nat).current = some 0) ∧
    (∃ tc,
      ((⟨⟨⟨[(0, (⟨7, none, none⟩ : TestcaseStorageItem Nat))], [0], some 0, some 0⟩,
          ⟨[], [], none, none⟩, 1⟩, some 0⟩ : InMemoryCorpus Nat).remove 0).1 =
        Except.ok tc) ∧
    ((⟨⟨⟨[(0, (⟨7, none, none⟩ : TestcaseStorageItem Nat))], [0], some 0, some 0⟩,
        ⟨[], [], none, none⟩, 1⟩, some 0⟩ : InMemoryCorpus Nat).remove 0).2.current =
      some 0 := by
  refine ⟨rfl, ?_⟩
  exact (c10_current_untouched
    (⟨⟨⟨[(0, (⟨7, none, none⟩ : TestcaseStorageItem Nat))], [0], some 0, some 0⟩,
      ⟨[], [], none, none⟩, 1⟩, some 0⟩ : InMemoryCorpus Nat)).2 0 rfl (by decide)

/-! Claim C8. -/

/-- Claim C8: `replace(id, tc)` fails with `KeyNotFound` (leaving the corpus
unchanged) exactly when `id` is not in the enabled partition — disabled ids
included; when `id` is enabled it returns the old testcase, stores the new
one, and keeps the entry's position: keys, `first`, `last`, `next`/`prev`
for every id, and all three counts are unchanged. -/
theorem c8_replace_contract {τ : Type} (c : InMemoryCorpus τ) (id : Nat) (tc : τ) :
    (mapGet c.storage.enabled.map id = none →
      c.replace id tc =
        (Except.error (Error.keyNotFound (notFoundReplaceMsg id)), c)) ∧
    (∀ item, mapGet c.storage.enabled.map id = some item →
      (c.replace id tc).1 = Except.ok item.testcase ∧
      (c.replace id tc).2.get id = Except.ok tc ∧
      (c.replace id tc).2.storage.enabled.keys = c.storage.enabled.keys ∧
      (c.replace id tc).2.first = c.first ∧
      (c.replace id tc).2.last = c.last ∧
      (∀ j, (c.replace id tc).2.next j = c.next j) ∧
      (∀ j, (c.replace id tc).2.prev j = c.prev j) ∧
      (c.replace id tc).2.count = c.count ∧
      (c.replace id tc).2.count_disabled = c.count_disabled ∧
      (c.replace id tc).2.count_all = c.count_all) := by
  constructor
  · intro hnone
    unfold InMemoryCorpus.replace
    rw [replace_eq_none c.storage.enabled id tc hnone]
  · intro item hsome
    have hrepl : c.storage.enabled.replace id tc =
        (some item.testcase,
          { c.storage.enabled with
              map := mapModify c.storage.enabled.map id
                (fun it => { it with testcase := tc }) }) := by
      unfold TestcaseStorageMap.replace
      rw [hsome]
    have hall : c.replace id tc =
        (Except.ok item.testcase,
          ⟨⟨{ c.storage.enabled with
                map := mapModify c.storage.enabled.map id
                  (fun it => { it with testcase := tc }) },
            c.storage.disabled, c.storage.progressive_id⟩, c.current⟩) := by
      unfold InMemoryCorpus.replace
      rw [hrepl]
    rw [hall]
    refine ⟨rfl, ?_, rfl, rfl, rfl, ?_, ?_, ?_, rfl, ?_⟩
    · show InMemoryCorpus.get _ id = _
      unfold InMemoryCorpus.get TestcaseStorageMap.get
      simp [mapGet_mapModify, hsome]
    · intro j
      show TestcaseStorageMap.next _ j = TestcaseStorageMap.next _ j
      unfold TestcaseStorageMap.next
      simp only [mapGet_mapModify]
      by_cases hj : j = id
      · subst hj
        rw [if_pos rfl, hsome]
        rfl
      · rw [if_neg hj]
    · intro j
      show TestcaseStorageMap.prev _ j = TestcaseStorageMap.prev _ j
      unfold TestcaseStorageMap.prev
      simp only [mapGet_mapModify]
      by_cases hj : j = id
      · subst hj
        rw [if_pos rfl, hsome]
        rfl
      · rw [if_neg hj]
    · exact length_mapModify c.storage.enabled.map id
        (fun it => { it with testcase := tc })
    · show satAdd
        (mapModify c.storage.enabled.map id
          (fun it => { it with testcase := tc })).length
        c.storage.disabled.map.length = _
      rw [length_mapModify]
      rfl

/-- Claim C8, witness: on a one-element corpus, replacing the enabled id `0`
returns the old testcase. -/
theorem c8_replace_contract_witness :
    ((⟨⟨⟨[(0, (⟨5, none, none⟩ : TestcaseStorageItem Nat))], [0], some 0, some 0⟩,
        ⟨[], [], none, none⟩, 1⟩, none⟩ : InMemoryCorpus Nat).replace 0 9).1 =
      Except.ok 5 :=
  ((c8_replace_contract
    (⟨⟨⟨[(0, (⟨5, none, none⟩ : TestcaseStorageItem Nat))], [0], some 0, some 0⟩,
      ⟨[], [], none, none⟩, 1⟩, none⟩ : InMemoryCorpus Nat) 0 9).2
    ⟨5, none, none⟩ rfl).1

/-! Claim C6. -/

/-- Claim C6: `add(tc)` followed by `remove` of the returned id yields back a
testcase equal to `tc`, and afterwards both `get` and `get_from_all` on that
id fail with `KeyNotFound`.  The hypothesis states the storage invariant that
all disabled keys are below the progressive counter (true of every reachable
state), which rules out a stale disabled entry under the fresh id. -/
theorem c6_add_remove_roundtrip {τ : Type} (c : InMemoryCorpus τ) (tc : τ)
    (hdis : keysBelowB c.storage.disabled.map c.storage.progressive_id = true) :
    ((c.add tc).2.remove (c.add tc).1).1 = Except.ok tc ∧
    ((c.add tc).2.remove (c.add tc).1).2.get (c.add tc).1 =
      Except.error (Error.keyNotFound (notFoundMsg (c.add tc).1)) ∧
    ((c.add tc).2.remove (c.add tc).1).2.get_from_all (c.add tc).1 =
      Except.error (Error.keyNotFound (notFoundMsg (c.add tc).1)) := by
  have ho : ((c.add tc).2.storage.enabled.remove (c.add tc).1).1 = some tc := by
    rw [remove_fst_eq]
    show (mapGet
      (c.storage.enabled.insertItem c.storage.progressive_id tc).map
      c.storage.progressive_id).map TestcaseStorageItem.testcase = _
    rw [mapGet_insertItem_self]
    rfl
  have hnone : mapGet ((c.add tc).2.storage.enabled.remove (c.add tc).1).2.map
      (c.add tc).1 = none := mapGet_remove_self _ _
  rcases hr : (c.add tc).2.storage.enabled.remove (c.add tc).1 with ⟨o, en2⟩
  rw [hr] at ho hnone
  simp only at ho hnone
  subst ho
  have hrem : (c.add tc).2.remove (c.add tc).1 =
      (Except.ok tc,
        ⟨⟨en2, (c.add tc).2.storage.disabled,
          (c.add tc).2.storage.progressive_id⟩, (c.add tc).2.current⟩) := by
    unfold InMemoryCorpus.remove
    rw [hr]
  rw [hrem]
  refine ⟨rfl, ?_, ?_⟩
  · show InMemoryCorpus.get _ _ = _
    unfold InMemoryCorpus.get TestcaseStorageMap.get
    rw [hnone]
    rfl
  · show InMemoryCorpus.get_from_all _ _ = _
    unfold InMemoryCorpus.get_from_all TestcaseStorageMap.get
    rw [hnone]
    have hd : mapGet (c.add tc).2.storage.disabled.map (c.add tc).1 = none := by
      show mapGet c.storage.disabled.map c.storage.progressive_id = none
      exact mapGet_eq_none_of_keysBelowB _ _ hdis
    rw [hd]
    rfl

/-- Claim C6, witness: the roundtrip on the fresh corpus with payload `42`. -/
theorem c6_add_remove_roundtrip_witness :
    (((InMemoryCorpus.new (τ := Nat)).add 42).2.remove
        ((InMemoryCorpus.new (τ := Nat)).add 42).1).1 = Except.ok 42 ∧
    (((InMemoryCorpus.new (τ := Nat)).add 42).2.remove
        ((InMemoryCorpus.new (τ := Nat)).add 42).1).2.get
        ((InMemoryCorpus.new (τ := Nat)).add 42).1 =
      Except.error (Error.keyNotFound
        (notFoundMsg ((InMemoryCorpus.new (τ := Nat)).add 42).1)) ∧
    (((InMemoryCorpus.new (τ := Nat)).add 42).2.remove
        ((InMemoryCorpus.new (τ := Nat)).add 42).1).2.get_from_all
        ((InMemoryCorpus.new (τ := Nat)).add 42).1 =
      Except.error (Error.keyNotFound
        (notFoundMsg ((InMemoryCorpus.new (τ := Nat)).add 42).1)) :=
  c6_add_remove_roundtrip (InMemoryCorpus.new (τ := Nat)) 42 (by decide)

/-! Claim C4. -/

/-- Claim C4: `disable(id)` succeeds exactly when `id` is in the enabled
partition and otherwise fails with `KeyNotFound` (whether `id` is disabled or
nonexistent); `enable(id)` symmetrically succeeds exactly when `id` is in the
disabled partition; and a second `disable(id)` right after a successful one
fails with `KeyNotFound` — there is no silent no-op.  The two hypotheses are
the storage invariant that all stored keys are below the progressive counter
(true of every reachable state). -/
theorem c4_disable_enable_exact {τ : Type} (c : InMemoryCorpus τ) (id : Nat)
    (hen : keysBelowB c.storage.enabled.map c.storage.progressive_id = true)
    (hdis : keysBelowB c.storage.disabled.map c.storage.progressive_id = true) :
    ((c.disable id).1 = Except.ok () ↔ (mapGet c.storage.enabled.map id).isSome) ∧
    (mapGet c.storage.enabled.map id = none →
      (c.disable id).1 = Except.error (Error.keyNotFound (notFoundEnabledMsg id))) ∧
    ((c.enable id).1 = Except.ok () ↔ (mapGet c.storage.disabled.map id).isSome) ∧
    (mapGet c.storage.disabled.map id = none →
      (c.enable id).1 = Except.error (Error.keyNotFound (notFoundDisabledMsg id))) ∧
    ((c.disable id).1 = Except.ok () →
      ((c.disable id).2.disable id).1 =
        Except.error (Error.keyNotFound (notFoundEnabledMsg id))) := by
  rcases hre : c.storage.enabled.remove id with ⟨oe, en'⟩
  rcases hrd : c.storage.disabled.remove id with ⟨od, dis'⟩
  have hoe : oe = (mapGet c.storage.enabled.map id).map TestcaseStorageItem.testcase := by
    have h := remove_fst_eq c.storage.enabled id
    rw [hre] at h
    exact h
  have hod : od = (mapGet c.storage.disabled.map id).map TestcaseStorageItem.testcase := by
    have h := remove_fst_eq c.storage.disabled id
    rw [hrd] at h
    exact h
  have henable :
      ((c.enable id).1 = Except.ok () ↔ (mapGet c.storage.disabled.map id).isSome) ∧
      (mapGet c.storage.disabled.map id = none →
        (c.enable id).1 = Except.error (Error.keyNotFound (notFoundDisabledMsg id))) := by
    cases hgd : mapGet c.storage.disabled.map id with
    | none =>
      have hod' : od = none := by rw [hod, hgd]; rfl
      subst hod'
      have hfail : (c.enable id).1 =
          Except.error (Error.keyNotFound (notFoundDisabledMsg id)) := by
        unfold InMemoryCorpus.enable
        rw [hrd]
      refine ⟨?_, fun _ => hfail⟩
      rw [hfail]
      simp
    | some item =>
      have hod' : od = some item.testcase := by rw [hod, hgd]; rfl
      subst hod'
      have hid : id < c.storage.progressive_id :=
        lt_of_keysBelowB_of_isSome _ _ _ hdis (by rw [hgd]; rfl)
      have hok : (c.enable id).1 = Except.ok () := by
        unfold InMemoryCorpus.enable
        rw [hrd]
        show (TestcaseStorage.insert_inner_with_id
          ⟨c.storage.enabled, dis', c.storage.progressive_id⟩
          item.testcase false id).1 = Except.ok ()
        unfold TestcaseStorage.insert_inner_with_id
        rw [if_neg (by omega : ¬ c.storage.progressive_id < id)]
        rfl
      refine ⟨?_, ?_⟩
      · rw [hok]
        simp
      · intro h
        exact absurd h (by simp)
  have hdisable :
      ((c.disable id).1 = Except.ok () ↔ (mapGet c.storage.enabled.map id).isSome) ∧
      (mapGet c.storage.enabled.map id = none →
        (c.disable id).1 = Except.error (Error.keyNotFound (notFoundEnabledMsg id))) ∧
      ((c.disable id).1 = Except.ok () →
        ((c.disable id).2.disable id).1 =
          Except.error (Error.keyNotFound (notFoundEnabledMsg id))) := by
    cases hge : mapGet c.storage.enabled.map id with
    | none =>
      have hoe' : oe = none := by rw [hoe, hge]; rfl
      subst hoe'
      have hfail : (c.disable id).1 =
          Except.error (Error.keyNotFound (notFoundEnabledMsg id)) := by
        unfold InMemoryCorpus.disable
        rw [hre]
      refine ⟨?_, fun _ => hfail, ?_⟩
      · rw [hfail]
        simp
      · intro h
        rw [hfail] at h
        exact absurd h (by simp)
    | some item =>
      have hoe' : oe = some item.testcase := by rw [hoe, hge]; rfl
      subst hoe'
      have hid : id < c.storage.progressive_id :=
        lt_of_keysBelowB_of_isSome _ _ _ hen (by rw [hge]; rfl)
      have hdis_ok : c.disable id =
          (Except.ok (),
            ⟨⟨en', c.storage.disabled.insertItem id item.testcase,
              c.storage.progressive_id⟩, c.current⟩) := by
        unfold InMemoryCorpus.disable
        rw [hre]
        show (TestcaseStorage.insert_inner_with_id
            ⟨en', c.storage.disabled, c.storage.progressive_id⟩
            item.testcase true id
          |>.1,
          ({ c with storage := (TestcaseStorage.insert_inner_with_id
            ⟨en', c.storage.disabled, c.storage.progressive_id⟩
            item.testcase true id).2 } : InMemoryCorpus τ)) = _
        unfold TestcaseStorage.insert_inner_with_id
        rw [if_neg (by omega : ¬ c.storage.progressive_id < id)]
        rfl
      have hen2 : mapGet en'.map id = none := by
        have h := mapGet_remove_self c.storage.enabled id
        rw [hre] at h
        exact h
      refine ⟨by rw [hdis_ok]; simp, ?_, ?_⟩
      · intro h
        exact absurd h (by simp)
      · intro _
        rw [hdis_ok]
        show (InMemoryCorpus.disable
          ⟨⟨en', c.storage.disabled.insertItem id item.testcase,
            c.storage.progressive_id⟩, c.current⟩ id).1 = _
        unfold InMemoryCorpus.disable
        rw [show (⟨⟨en', c.storage.disabled.insertItem id item.testcase,
            c.storage.progressive_id⟩, c.current⟩ : InMemoryCorpus τ).storage.enabled.remove id =
          (none, en') from remove_eq_none en' id hen2]
  exact ⟨hdisable.1, hdisable.2.1, henable.1, henable.2, hdisable.2.2⟩

/-- Claim C4, witness: on `sampleCorpus` (id `0` enabled), the success of
`disable 0` is equivalent to id `0` being enabled, and a second `disable 0`
fails with `KeyNotFound`. -/
theorem c4_disable_enable_exact_witness :
    ((sampleCorpus.disable 0).1 = Except.ok () ↔
      (mapGet sampleCorpus.storage.enabled.map 0).isSome) ∧
    ((sampleCorpus.disable 0).1 = Except.ok () →
      (((sampleCorpus.disable 0).2.disable 0).1 =
        Except.error (Error.keyNotFound (notFoundEnabledMsg 0)))) := by
  have h := c4_disable_enable_exact sampleCorpus 0 (by decide) (by decide)
  exact ⟨h.1, h.2.2.2.2⟩

/-! Claim C5. -/

theorem storageWF_new : StorageWF (TestcaseStorage.new (τ := τ)) := by
  refine ⟨?_, ?_, ?_⟩ <;> intro k h <;>
    simp [TestcaseStorage.new, TestcaseStorageMap.new, mapGet] at h

theorem stepL_preserves_WF {τ : Type} (c : InMemoryCorpus τ) (op : CorpusOp τ)
    (h : StorageWF c.storage) : StorageWF (stepL c op).2.storage := by
  obtain ⟨hbe, hbd, hdisj⟩ := h
  cases op with
  | add tc =>
    refine ⟨?_, ?_, ?_⟩
    · intro k hk
      show k < c.storage.progressive_id + 1
      have hm := (isSome_mapGet_insertItem c.storage.enabled
        c.storage.progressive_id k tc).mp hk
      rcases hm with rfl | hs
      · omega
      · have := hbe k hs
        omega
    · intro k hk
      show k < c.storage.progressive_id + 1
      have := hbd k hk
      omega
    · intro k hk
      have hm := (isSome_mapGet_insertItem c.storage.enabled
        c.storage.progressive_id k tc).mp hk
      rcases hm with rfl | hs
      · rw [← Option.not_isSome_iff_eq_none]
        intro hkd
        have := hbd _ hkd
        omega
      · exact hdisj k hs
  | addDisabled tc =>
    refine ⟨?_, ?_, ?_⟩
    · intro k hk
      show k < c.storage.progressive_id + 1
      have := hbe k hk
      omega
    · intro k hk
      show k < c.storage.progressive_id + 1
      have hm := (isSome_mapGet_insertItem c.storage.disabled
        c.storage.progressive_id k tc).mp hk
      rcases hm with rfl | hs
      · omega
      · have := hbd k hs
        omega
    · intro k hk
      have hkpid := hbe k hk
      rw [← Option.not_isSome_iff_eq_none]
      intro hkd
      have hm := (isSome_mapGet_insertItem c.storage.disabled
        c.storage.progressive_id k tc).mp hkd
      rcases hm with rfl | hs
      · omega
      · have h0 := hdisj k hk
        rw [h0] at hs
        exact absurd hs (by simp)
  | removeOp id =>
    show StorageWF (c.remove id).2.storage
    rcases hre : c.storage.enabled.remove id with ⟨oe, en'⟩
    have hen' : ∀ k, (mapGet en'.map k).isSome ↔
        k ≠ id ∧ (mapGet c.storage.enabled.map k).isSome := by
      intro k
      have h1 := isSome_mapGet_remove c.storage.enabled id k
      rw [hre] at h1
      exact h1
    cases oe with
    | some tc =>
      have heq : (c.remove id).2 =
          ⟨⟨en', c.storage.disabled, c.storage.progressive_id⟩, c.current⟩ := by
        unfold InMemoryCorpus.remove
        rw [hre]
      rw [heq]
      exact ⟨fun k hk => hbe k ((hen' k).mp hk).2, hbd,
        fun k hk => hdisj k ((hen' k).mp hk).2⟩
    | none =>
      rcases hrd : c.storage.disabled.remove id with ⟨od, dis'⟩
      have hdis' : ∀ k, (mapGet dis'.map k).isSome ↔
          k ≠ id ∧ (mapGet c.storage.disabled.map k).isSome := by
        intro k
        have h1 := isSome_mapGet_remove c.storage.disabled id k
        rw [hrd] at h1
        exact h1
      cases od with
      | some tc =>
        have heq : (c.remove id).2 =
            ⟨⟨c.storage.enabled, dis', c.storage.progressive_id⟩, c.current⟩ := by
          unfold InMemoryCorpus.remove
          rw [hre, hrd]
        rw [heq]
        refine ⟨hbe, fun k hk => hbd k ((hdis' k).mp hk).2, ?_⟩
        intro k hk
        rw [← Option.not_isSome_iff_eq_none]
        intro hkd
        have h2 := ((hdis' k).mp hkd).2
        have h0 := hdisj k hk
        rw [h0] at h2
        exact absurd h2 (by simp)
      | none =>
        have heq : (c.remove id).2 = c := by
          unfold InMemoryCorpus.remove
          rw [hre, hrd]
        rw [heq]
        exact ⟨hbe, hbd, hdisj⟩
  | replaceOp id tc =>
    show StorageWF (c.replace id tc).2.storage
    rcases hrp : c.storage.enabled.replace id tc with ⟨o, en'⟩
    have heq : (c.replace id tc).2 =
        ⟨⟨en', c.storage.disabled, c.storage.progressive_id⟩, c.current⟩ := by
      unfold InMemoryCorpus.replace
      rw [hrp]
      cases o with
      | some old => rfl
      | none => rfl
    rw [heq]
    have hen' : ∀ k, (mapGet en'.map k).isSome ↔
        (mapGet c.storage.enabled.map k).isSome := by
      intro k
      have h1 := isSome_mapGet_replace c.storage.enabled id k tc
      rw [hrp] at h1
      exact h1
    exact ⟨fun k hk => hbe k ((hen' k).mp hk), hbd,
      fun k hk => hdisj k ((hen' k).mp hk)⟩
  | disableOp id =>
    show StorageWF (c.disable id).2.storage
    rcases hre : c.storage.enabled.remove id with ⟨oe, en'⟩
    cases hge : mapGet c.storage.enabled.map id with
    | none =>
      have hoe : oe = none := by
        have h1 := remove_fst_eq c.storage.enabled id
        rw [hre, hge] at h1
        exact h1
      subst hoe
      have heq : (c.disable id).2 = c := by
        unfold InMemoryCorpus.disable
        rw [hre]
      rw [heq]
      exact ⟨hbe, hbd, hdisj⟩
    | some item =>
      have hoe : oe = some item.testcase := by
        have h1 := remove_fst_eq c.storage.enabled id
        rw [hre, hge] at h1
        exact h1
      subst hoe
      have hid : id < c.storage.progressive_id := hbe id (by rw [hge]; rfl)
      have heq : (c.disable id).2 =
          ⟨⟨en', c.storage.disabled.insertItem id item.testcase,
            c.storage.progressive_id⟩, c.current⟩ := by
        unfold InMemoryCorpus.disable
        rw [hre]
        show ({ c with storage := (TestcaseStorage.insert_inner_with_id
          ⟨en', c.storage.disabled, c.storage.progressive_id⟩
          item.testcase true id).2 } : InMemoryCorpus τ) = _
        unfold TestcaseStorage.insert_inner_with_id
        rw [if_neg (by omega : ¬ c.storage.progressive_id < id)]
        rfl
      rw [heq]
      have hen' : ∀ k, (mapGet en'.map k).isSome ↔
          k ≠ id ∧ (mapGet c.storage.enabled.map k).isSome := by
        intro k
        have h1 := isSome_mapGet_remove c.storage.enabled id k
        rw [hre] at h1
        exact h1
      refine ⟨?_, ?_, ?_⟩
      · intro k hk
        exact hbe k ((hen' k).mp hk).2
      · intro k hk
        have hm := (isSome_mapGet_insertItem c.storage.disabled id k
          item.testcase).mp hk
        rcases hm with rfl | hs
        · exact hid
        · exact hbd k hs
      · intro k hk
        have hk2 := (hen' k).mp hk
        rw [← Option.not_isSome_iff_eq_none]
        intro hkd
        have hm := (isSome_mapGet_insertItem c.storage.disabled id k
          item.testcase).mp hkd
        rcases hm with rfl | hs
        · exact hk2.1 rfl
        · have h0 := hdisj k hk2.2
          rw [h0] at hs
          exact absurd hs (by simp)
  | enableOp id =>
    show StorageWF (c.enable id).2.storage
    rcases hrd : c.storage.disabled.remove id with ⟨od, dis'⟩
    cases hgd : mapGet c.storage.disabled.map id with
    | none =>
      have hod : od = none := by
        have h1 := remove_fst_eq c.storage.disabled id
        rw [hrd, hgd] at h1
        exact h1
      subst hod
      have heq : (c.enable id).2 = c := by
        unfold InMemoryCorpus.enable
        rw [hrd]
      rw [heq]
      exact ⟨hbe, hbd, hdisj⟩
    | some item =>
      have hod : od = some item.testcase := by
        have h1 := remove_fst_eq c.storage.disabled id
        rw [hrd, hgd] at h1
        exact h1
      subst hod
      have hid : id < c.storage.progressive_id := hbd id (by rw [hgd]; rfl)
      have heq : (c.enable id).2 =
          ⟨⟨c.storage.enabled.insertItem id item.testcase, dis',
            c.storage.progressive_id⟩, c.current⟩ := by
        unfold InMemoryCorpus.enable
        rw [hrd]
        show ({ c with storage := (TestcaseStorage.insert_inner_with_id
          ⟨c.storage.enabled, dis', c.storage.progressive_id⟩
          item.testcase false id).2 } : InMemoryCorpus τ) = _
        unfold TestcaseStorage.insert_inner_with_id
        rw [if_neg (by omega : ¬ c.storage.progressive_id < id)]
        rfl
      rw [heq]
      have hdis' : ∀ k, (mapGet dis'.map k).isSome ↔
          k ≠ id ∧ (mapGet c.storage.disabled.map k).isSome := by
        intro k
        have h1 := isSome_mapGet_remove c.storage.disabled id k
        rw [hrd] at h1
        exact h1
      refine ⟨?_, ?_, ?_⟩
      · intro k hk
        have hm := (isSome_mapGet_insertItem c.storage.enabled id k
          item.testcase).mp hk
        rcases hm with rfl | hs
        · exact hid
        · exact hbe k hs
      · intro k hk
        exact hbd k ((hdis' k).mp hk).2
      · intro k hk
        have hm := (isSome_mapGet_insertItem c.storage.enabled id k
          item.testcase).mp hk
        rw [← Option.not_isSome_iff_eq_none]
        intro hkd
        have hk2 := (hdis' k).mp hkd
        rcases hm with rfl | hs
        · exact hk2.1 rfl
        · have h0 := hdisj k hs
          rw [h0] at hk2
          exact absurd hk2.2 (by simp)

theorem runL_preserves_WF {τ : Type} (ops : List (CorpusOp τ)) :
    ∀ c : InMemoryCorpus τ, StorageWF c.storage → StorageWF (runL c ops).storage := by
  induction ops with
  | nil => exact fun c h => h
  | cons op ops ih => exact fun c h => ih (stepL c op).2 (stepL_preserves_WF c op h)

/-- Claim C5: after every sequence of `add`, `add_disabled`, `remove`,
`replace`, `enable` and `disable` operations starting from the fresh corpus,
`count_all` equals the saturating sum of `count` and `count_disabled`
(definitionally, as in the source), and no id is in both partitions: an id
retrievable via `get` is never also retrievable via the disabled-only
lookup. -/
theorem c5_partition_invariant {τ : Type} (ops : List (CorpusOp τ)) :
    (runL (InMemoryCorpus.new (τ := τ)) ops).count_all =
      satAdd (runL (InMemoryCorpus.new (τ := τ)) ops).count
        (runL (InMemoryCorpus.new (τ := τ)) ops).count_disabled ∧
    ∀ id tc, (runL (InMemoryCorpus.new (τ := τ)) ops).get id = Except.ok tc →
      (runL (InMemoryCorpus.new (τ := τ)) ops).storage.disabled.get id = none := by
  refine ⟨rfl, ?_⟩
  intro id tc hget
  have hwf := runL_preserves_WF ops (InMemoryCorpus.new (τ := τ)) storageWF_new
  have hsome : (mapGet (runL (InMemoryCorpus.new (τ := τ))
      ops).storage.enabled.map id).isSome := by
    by_contra hn
    rw [Option.not_isSome_iff_eq_none] at hn
    unfold InMemoryCorpus.get TestcaseStorageMap.get at hget
    rw [hn] at hget
    simp at hget
  have hnone := hwf.2.2 id hsome
  unfold TestcaseStorageMap.get
  rw [hnone]
  rfl

/-- Claim C5, witness: the invariant instantiated after `add 5` then
`add_disabled 6`: id `0` is retrievable via `get`, hence invisible to the
disabled-only lookup. -/
theorem c5_partition_invariant_witness :
    (runL (InMemoryCorpus.new (τ := Nat))
      [CorpusOp.add 5, CorpusOp.addDisabled 6]).storage.disabled.get 0 = none :=
  (c5_partition_invariant [CorpusOp.add 5, CorpusOp.addDisabled 6]).2 0 5 (by decide)

/-! Order theory of sorted key lists, used by the variant-equivalence proof. -/

theorem succIn_eq_none_iff (ks : List Nat) (k : Nat) :
    succIn ks k = none ↔ ∀ x ∈ ks, ¬ k < x := by
  induction ks with
  | nil => simp [succIn]
  | cons a t ih =>
    by_cases h : k < a
    · simp [succIn, h]
    · rw [succIn, if_neg h, ih]
      constructor
      · intro ht x hx
        rcases List.mem_cons.mp hx with rfl | hx2
        · exact h
        · exact ht x hx2
      · intro ht x hx
        exact ht x (List.mem_cons_of_mem _ hx)

theorem succIn_char (ks : List Nat) (k : Nat) :
    ks.Pairwise (· < ·) → ∀ s,
      (succIn ks k = some s ↔ s ∈ ks ∧ k < s ∧ ∀ x ∈ ks, k < x → s ≤ x) := by
  induction ks with
  | nil => intro _ s; simp [succIn]
  | cons a t ih =>
    intro hs s
    rw [List.pairwise_cons] at hs
    by_cases h : k < a
    · rw [succIn, if_pos h]
      constructor
      · intro he
        have ha : a = s := Option.some.inj he
        subst ha
        refine ⟨List.mem_cons_self a t, h, ?_⟩
        intro x hx hkx
        rcases List.mem_cons.mp hx with rfl | hxt
        · exact le_refl x
        · exact le_of_lt (hs.1 x hxt)
      · rintro ⟨hmem, hks, hmin⟩
        have hsa : s ≤ a := hmin a (List.mem_cons_self a t) h
        rcases List.mem_cons.mp hmem with rfl | hst
        · rfl
        · exact absurd (hs.1 s hst) (not_lt.mpr hsa)
    · rw [succIn, if_neg h, ih hs.2 s]
      constructor
      · rintro ⟨hmem, hks, hmin⟩
        refine ⟨List.mem_cons_of_mem _ hmem, hks, ?_⟩
        intro x hx hkx
        rcases List.mem_cons.mp hx with rfl | hxt
        · exact absurd hkx h
        · exact hmin x hxt hkx
      · rintro ⟨hmem, hks, hmin⟩
        rcases List.mem_cons.mp hmem with rfl | hst
        · exact absurd hks h
        · exact ⟨hst, hks, fun x hx hkx => hmin x (List.mem_cons_of_mem _ hx) hkx⟩

theorem predIn_eq_none_iff (ks : List Nat) (k : Nat) :
    predIn ks k = none ↔ ∀ x ∈ ks, ¬ x < k := by
  induction ks with
  | nil => simp [predIn]
  | cons a t ih =>
    by_cases h : a < k
    · rw [predIn, if_pos h]
      cases hp : predIn t k <;> simp [h]
    · rw [predIn, if_neg h, ih]
      constructor
      · intro ht x hx
        rcases List.mem_cons.mp hx with rfl | hx2
        · exact h
        · exact ht x hx2
      · intro ht x hx
        exact ht x (List.mem_cons_of_mem _ hx)

theorem predIn_char (ks : List Nat) (k : Nat) :
    ks.Pairwise (· < ·) → ∀ p,
      (predIn ks k = some p ↔ p ∈ ks ∧ p < k ∧ ∀ x ∈ ks, x < k → x ≤ p) := by
  induction ks with
  | nil => intro _ p; simp [predIn]
  | cons a t ih =>
    intro hs p
    rw [List.pairwise_cons] at hs
    by_cases h : a < k
    · rw [predIn, if_pos h]
      cases hq : predIn t k with
      | none =>
        have hnone := (predIn_eq_none_iff t k).mp hq
        constructor
        · intro he
          have ha : a = p := Option.some.inj he
          subst ha
          refine ⟨List.mem_cons_self a t, h, ?_⟩
          intro x hx hxk
          rcases List.mem_cons.mp hx with rfl | hxt
          · exact le_refl x
          · exact absurd hxk (hnone x hxt)
        · rintro ⟨hmem, hpk, hmax⟩
          rcases List.mem_cons.mp hmem with rfl | hpt
          · rfl
          · exact absurd hpk (hnone p hpt)
      | some q =>
        have hqc := (ih hs.2 q).mp hq
        constructor
        · intro he
          have hqp : q = p := Option.some.inj he
          subst hqp
          refine ⟨List.mem_cons_of_mem _ hqc.1, hqc.2.1, ?_⟩
          intro x hx hxk
          rcases List.mem_cons.mp hx with rfl | hxt
          · exact le_of_lt (hs.1 q hqc.1)
          · exact hqc.2.2 x hxt hxk
        · rintro ⟨hmem, hpk, hmax⟩
          rcases List.mem_cons.mp hmem with rfl | hpt
          · exact absurd (hs.1 q hqc.1)
              (not_lt.mpr (hmax q (List.mem_cons_of_mem _ hqc.1) hqc.2.1))
          · have h1 : p ≤ q := hqc.2.2 p hpt hpk
            have h2 : q ≤ p := hmax q (List.mem_cons_of_mem _ hqc.1) hqc.2.1
            rw [le_antisymm h2 h1]
    · rw [predIn, if_neg h, ih hs.2 p]
      constructor
      · rintro ⟨hmem, hpk, hmax⟩
        refine ⟨List.mem_cons_of_mem _ hmem, hpk, ?_⟩
        intro x hx hxk
        rcases List.mem_cons.mp hx with rfl | hxt
        · exact absurd hxk h
        · exact hmax x hxt hxk
      · rintro ⟨hmem, hpk, hmax⟩
        rcases List.mem_cons.mp hmem with rfl | hpt
        · exact absurd hpk h
        · exact ⟨hpt, hpk, fun x hx hxk => hmax x (List.mem_cons_of_mem _ hx) hxk⟩

theorem head?_sorted_char (ks : List Nat) (hs : ks.Pairwise (· < ·)) (h : Nat) :
    ks.head? = some h ↔ h ∈ ks ∧ ∀ x ∈ ks, h ≤ x := by
  cases ks with
  | nil => simp
  | cons a t =>
    rw [List.pairwise_cons] at hs
    simp only [List.head?_cons, Option.some.injEq]
    constructor
    · intro hah
      subst hah
      refine ⟨List.mem_cons_self _ _, ?_⟩
      intro x hx
      rcases List.mem_cons.mp hx with rfl | hxt
      · exact le_refl x
      · exact le_of_lt (hs.1 x hxt)
    · rintro ⟨hmem, hmin⟩
      rcases List.mem_cons.mp hmem with rfl | hht
      · rfl
      · exact absurd (hs.1 h hht) (not_lt.mpr (hmin a (List.mem_cons_self _ _)))

theorem getLast?_sorted_char (ks : List Nat) :
    ks.Pairwise (· < ·) → ∀ h,
      (ks.getLast? = some h ↔ h ∈ ks ∧ ∀ x ∈ ks, x ≤ h) := by
  induction ks with
  | nil => intro _ h; simp
  | cons a t ih =>
    intro hs h
    rw [List.pairwise_cons] at hs
    cases t with
    | nil =>
      simp only [List.getLast?_singleton, Option.some.injEq, List.mem_singleton]
      constructor
      · intro hah
        subst hah
        exact ⟨rfl, fun x hx => le_of_eq hx⟩
      · rintro ⟨rfl, -⟩
        rfl
    | cons b t' =>
      rw [List.getLast?_cons_cons, ih hs.2 h]
      constructor
      · rintro ⟨hmem, hmax⟩
        refine ⟨List.mem_cons_of_mem _ hmem, ?_⟩
        intro x hx
        rcases List.mem_cons.mp hx with rfl | hxt
        · exact le_of_lt (hs.1 h hmem)
        · exact hmax x hxt
      · rintro ⟨hmem, hmax⟩
        rcases List.mem_cons.mp hmem with rfl | hht
        · exact absurd (hs.1 b (List.mem_cons_self _ _))
            (not_lt.mpr (hmax b (List.mem_cons_of_mem _ (List.mem_cons_self _ _))))
        · exact ⟨hht, fun x hx => hmax x (List.mem_cons_of_mem _ hx)⟩

theorem insertKey_append (ks : List Nat) (id : Nat)
    (hb : ∀ x ∈ ks, x < id) : insertKey ks id = ks ++ [id] := by
  induction ks with
  | nil => rfl
  | cons a t ih =>
    have ha : a < id := hb a (List.mem_cons_self _ _)
    rw [insertKey, if_neg (lt_asymm ha), if_neg (Nat.ne_of_gt ha),
      ih (fun x hx => hb x (List.mem_cons_of_mem _ hx))]
    rfl

theorem removeKey_eq_filter (ks : List Nat) (id : Nat) :
    ks.Pairwise (· < ·) →
      removeKey ks id = ks.filter (fun x => decide (x ≠ id)) := by
  induction ks with
  | nil => intro _; rfl
  | cons a t ih =>
    intro hs
    rw [List.pairwise_cons] at hs
    by_cases h : a = id
    · subst h
      rw [removeKey, if_pos rfl]
      have h1 : List.filter (fun x => decide (x ≠ a)) (a :: t) =
          List.filter (fun x => decide (x ≠ a)) t := by
        rw [List.filter_cons]
        simp
      rw [h1, List.filter_eq_self.mpr
        fun x hx => decide_eq_true (Nat.ne_of_gt (hs.1 x hx))]
    · rw [removeKey, if_neg h, ih hs.2, List.filter_cons]
      simp [h]

theorem btInsert_append (m : List (Nat × τ)) (id : Nat) (tc : τ)
    (hb : ∀ x ∈ m.map Prod.fst, x < id) :
    btInsert m id tc = m ++ [(id, tc)] := by
  induction m with
  | nil => rfl
  | cons p rest ih =>
    have hp : p.1 < id := hb p.1 (by simp)
    rw [btInsert, if_neg (lt_asymm hp), if_neg (Nat.ne_of_gt hp),
      ih (fun x hx => hb x (by simp at hx ⊢; right; exact hx))]
    rfl

theorem keysOf_filter (m : List (Nat × τ)) (q : Nat → Bool) :
    (m.filter (fun p => q p.1)).map Prod.fst = (m.map Prod.fst).filter q := by
  induction m with
  | nil => rfl
  | cons p rest ih =>
    by_cases h : q p.1
    · simp [List.filter_cons, h, ih]
    · simp [List.filter_cons, h, ih]

theorem succIn_of_all_gt (ks : List Nat) (k : Nat)
    (hb : ∀ x ∈ ks, k < x) : succIn ks k = ks.head? := by
  cases ks with
  | nil => rfl
  | cons a t =>
    rw [succIn, if_pos (hb a (List.mem_cons_self _ _))]
    rfl

theorem succIn_append_single (ks : List Nat) (id k : Nat) :
    succIn (ks ++ [id]) k =
      match succIn ks k with
      | some s => some s
      | none => if k < id then some id else none := by
  induction ks with
  | nil => rfl
  | cons a t ih =>
    by_cases h : k < a
    · simp [succIn, h]
    · simp only [List.cons_append, List.append_eq, succIn, if_neg h, ih]

theorem predIn_append_of_not_lt (ks : List Nat) (id k : Nat) (h : ¬ id < k) :
    predIn (ks ++ [id]) k = predIn ks k := by
  induction ks with
  | nil => simp [predIn, h]
  | cons a t ih =>
    by_cases ha : a < k
    · simp only [List.cons_append, List.append_eq, predIn, if_pos ha, ih]
    · simp only [List.cons_append, List.append_eq, predIn, if_neg ha, ih]

theorem predIn_append_self (ks : List Nat) (id : Nat)
    (hb : ∀ x ∈ ks, x < id) : predIn (ks ++ [id]) id = ks.getLast? := by
  induction ks with
  | nil => simp [predIn]
  | cons a t ih =>
    have ha : a < id := hb a (List.mem_cons_self _ _)
    simp only [List.cons_append, List.append_eq, predIn, if_pos ha,
      ih (fun x hx => hb x (List.mem_cons_of_mem _ hx))]
    cases ht : t with
    | nil => rfl
    | cons b t' =>
      rw [List.getLast?_cons_cons]
      have hne : (b :: t').getLast?.isSome := by
        rw [List.getLast?_isSome]
        exact List.cons_ne_nil b t'
      rcases Option.isSome_iff_exists.mp hne with ⟨w, hw⟩
      rw [hw]

theorem mem_filter_ne (ks : List Nat) (id x : Nat) :
    x ∈ ks.filter (fun y => decide (y ≠ id)) ↔ x ∈ ks ∧ x ≠ id := by
  rw [List.mem_filter]
  simp

theorem succIn_filter (ks : List Nat) (id k : Nat)
    (hs : ks.Pairwise (· < ·)) (hk : k ≠ id) :
    succIn (ks.filter (fun y => decide (y ≠ id))) k =
      match succIn ks k with
      | some s => if s = id then succIn ks id else some s
      | none => none := by
  have hsF : (ks.filter (fun y => decide (y ≠ id))).Pairwise (· < ·) :=
    hs.filter _
  cases h1 : succIn ks k with
  | none =>
    have hnone := (succIn_eq_none_iff ks k).mp h1
    rw [succIn_eq_none_iff]
    intro x hx
    exact hnone x ((mem_filter_ne ks id x).mp hx).1
  | some s =>
    have hc1 := (succIn_char ks k hs s).mp h1
    show succIn (ks.filter (fun y => decide (y ≠ id))) k =
      if s = id then succIn ks id else some s
    by_cases hsid : s = id
    · subst hsid
      rw [if_pos rfl]
      cases h2 : succIn ks s with
      | none =>
        have hnone := (succIn_eq_none_iff ks s).mp h2
        rw [succIn_eq_none_iff]
        intro x hx hkx
        have hx2 := (mem_filter_ne ks s x).mp hx
        have hsx : s ≤ x := hc1.2.2 x hx2.1 hkx
        have : s < x := lt_of_le_of_ne hsx (fun hh => hx2.2 hh.symm)
        exact hnone x hx2.1 this
      | some u =>
        have hc2 := (succIn_char ks s hs u).mp h2
        rw [(succIn_char _ k hsF u).mpr ?_]
        refine ⟨?_, ?_, ?_⟩
        · exact (mem_filter_ne ks s u).mpr ⟨hc2.1, ne_of_gt hc2.2.1⟩
        · exact lt_trans hc1.2.1 hc2.2.1
        · intro x hx hkx
          have hx2 := (mem_filter_ne ks s x).mp hx
          have hsx : s ≤ x := hc1.2.2 x hx2.1 hkx
          have hslt : s < x := lt_of_le_of_ne hsx (fun hh => hx2.2 hh.symm)
          exact hc2.2.2 x hx2.1 hslt
    · rw [if_neg hsid]
      rw [(succIn_char _ k hsF s).mpr ?_]
      refine ⟨(mem_filter_ne ks id s).mpr ⟨hc1.1, hsid⟩, hc1.2.1, ?_⟩
      intro x hx hkx
      exact hc1.2.2 x ((mem_filter_ne ks id x).mp hx).1 hkx

theorem predIn_filter (ks : List Nat) (id k : Nat)
    (hs : ks.Pairwise (· < ·)) (hk : k ≠ id) :
    predIn (ks.filter (fun y => decide (y ≠ id))) k =
      match predIn ks k with
      | some p => if p = id then predIn ks id else some p
      | none => none := by
  have hsF : (ks.filter (fun y => decide (y ≠ id))).Pairwise (· < ·) :=
    hs.filter _
  cases h1 : predIn ks k with
  | none =>
    have hnone := (predIn_eq_none_iff ks k).mp h1
    rw [predIn_eq_none_iff]
    intro x hx
    exact hnone x ((mem_filter_ne ks id x).mp hx).1
  | some p =>
    have hc1 := (predIn_char ks k hs p).mp h1
    show predIn (ks.filter (fun y => decide (y ≠ id))) k =
      if p = id then predIn ks id else some p
    by_cases hpid : p = id
    · subst hpid
      rw [if_pos rfl]
      cases h2 : predIn ks p with
      | none =>
        have hnone := (predIn_eq_none_iff ks p).mp h2
        rw [predIn_eq_none_iff]
        intro x hx hxk
        have hx2 := (mem_filter_ne ks p x).mp hx
        have hxp : x ≤ p := hc1.2.2 x hx2.1 hxk
        have : x < p := lt_of_le_of_ne hxp hx2.2
        exact hnone x hx2.1 this
      | some u =>
        have hc2 := (predIn_char ks p hs u).mp h2
        rw [(predIn_char _ k hsF u).mpr ?_]
        refine ⟨?_, ?_, ?_⟩
        · exact (mem_filter_ne ks p u).mpr ⟨hc2.1, ne_of_lt hc2.2.1⟩
        · exact lt_trans hc2.2.1 hc1.2.1
        · intro x hx hxk
          have hx2 := (mem_filter_ne ks p x).mp hx
          have hxp : x ≤ p := hc1.2.2 x hx2.1 hxk
          have hxlt : x < p := lt_of_le_of_ne hxp hx2.2
          exact hc2.2.2 x hx2.1 hxlt
    · rw [if_neg hpid]
      rw [(predIn_char _ k hsF p).mpr ?_]
      refine ⟨(mem_filter_ne ks id p).mpr ⟨hc1.1, hpid⟩, hc1.2.1, ?_⟩
      intro x hx hxk
      exact hc1.2.2 x ((mem_filter_ne ks id x).mp hx).1 hxk

theorem head?_filter_of_head_ne (ks : List Nat) (id h : Nat)
    (hs : ks.Pairwise (· < ·)) (hh : ks.head? = some h) (hne : h ≠ id) :
    (ks.filter (fun y => decide (y ≠ id))).head? = some h := by
  have hsF : (ks.filter (fun y => decide (y ≠ id))).Pairwise (· < ·) :=
    hs.filter _
  have hc := (head?_sorted_char ks hs h).mp hh
  rw [head?_sorted_char _ hsF h]
  exact ⟨(mem_filter_ne ks id h).mpr ⟨hc.1, hne⟩,
    fun x hx => hc.2 x ((mem_filter_ne ks id x).mp hx).1⟩

theorem head?_filter_of_head_eq (ks : List Nat) (id : Nat)
    (hs : ks.Pairwise (· < ·)) (hh : ks.head? = some id) :
    (ks.filter (fun y => decide (y ≠ id))).head? = succIn ks id := by
  have hsF : (ks.filter (fun y => decide (y ≠ id))).Pairwise (· < ·) :=
    hs.filter _
  have hc := (head?_sorted_char ks hs id).mp hh
  cases h2 : succIn ks id with
  | none =>
    have hnone := (succIn_eq_none_iff ks id).mp h2
    have : ks.filter (fun y => decide (y ≠ id)) = [] := by
      rw [List.filter_eq_nil_iff]
      intro x hx
      have hge : id ≤ x := hc.2 x hx
      have hle : ¬ id < x := hnone x hx
      simp only [decide_eq_true_eq, ne_eq, not_not]
      omega
    rw [this]
    rfl
  | some u =>
    have hc2 := (succIn_char ks id hs u).mp h2
    rw [head?_sorted_char _ hsF u]
    refine ⟨(mem_filter_ne ks id u).mpr ⟨hc2.1, ne_of_gt hc2.2.1⟩, ?_⟩
    intro x hx
    have hx2 := (mem_filter_ne ks id x).mp hx
    have hge : id ≤ x := hc.2 x hx2.1
    have hlt : id < x := lt_of_le_of_ne hge (fun hh2 => hx2.2 hh2.symm)
    exact hc2.2.2 x hx2.1 hlt

theorem getLast?_filter_of_last_ne (ks : List Nat) (id h : Nat)
    (hs : ks.Pairwise (· < ·)) (hh : ks.getLast? = some h) (hne : h ≠ id) :
    (ks.filter (fun y => decide (y ≠ id))).getLast? = some h := by
  have hsF : (ks.filter (fun y => decide (y ≠ id))).Pairwise (· < ·) :=
    hs.filter _
  have hc := (getLast?_sorted_char ks hs h).mp hh
  rw [getLast?_sorted_char _ hsF h]
  exact ⟨(mem_filter_ne ks id h).mpr ⟨hc.1, hne⟩,
    fun x hx => hc.2 x ((mem_filter_ne ks id x).mp hx).1⟩

theorem getLast?_filter_of_last_eq (ks : List Nat) (id : Nat)
    (hs : ks.Pairwise (· < ·)) (hh : ks.getLast? = some id) :
    (ks.filter (fun y => decide (y ≠ id))).getLast? = predIn ks id := by
  have hsF : (ks.filter (fun y => decide (y ≠ id))).Pairwise (· < ·) :=
    hs.filter _
  have hc := (getLast?_sorted_char ks hs id).mp hh
  cases h2 : predIn ks id with
  | none =>
    have hnone := (predIn_eq_none_iff ks id).mp h2
    have : ks.filter (fun y => decide (y ≠ id)) = [] := by
      rw [List.filter_eq_nil_iff]
      intro x hx
      have hge : x ≤ id := hc.2 x hx
      have hle : ¬ x < id := hnone x hx
      simp only [decide_eq_true_eq, ne_eq, not_not]
      omega
    rw [this]
    rfl
  | some u =>
    have hc2 := (predIn_char ks id hs u).mp h2
    rw [getLast?_sorted_char _ hsF u]
    refine ⟨(mem_filter_ne ks id u).mpr ⟨hc2.1, ne_of_lt hc2.2.1⟩, ?_⟩
    intro x hx
    have hx2 := (mem_filter_ne ks id x).mp hx
    have hge : x ≤ id := hc.2 x hx2.1
    have hlt : x < id := lt_of_le_of_ne hge hx2.2
    exact hc2.2.2 x hx2.1 hlt

theorem predIn_eq_filter_getLast (ks : List Nat) (k : Nat) :
    predIn ks k = (ks.filter (fun x => decide (x < k))).getLast? := by
  induction ks with
  | nil => rfl
  | cons a t ih =>
    by_cases ha : a < k
    · rw [predIn, if_pos ha, ih]
      rw [List.filter_cons, if_pos (by simpa using ha)]
      cases hft : t.filter (fun x => decide (x < k)) with
      | nil => rfl
      | cons w ft' =>
        rw [List.getLast?_cons_cons]
        have hne : (w :: ft').getLast?.isSome := by
          rw [List.getLast?_isSome]
          exact List.cons_ne_nil w ft'
        rcases Option.isSome_iff_exists.mp hne with ⟨z, hz⟩
        rw [hz]
    · rw [predIn, if_neg ha, ih, List.filter_cons,
        if_neg (by simpa using ha)]

theorem range_le_decompose (m : List (Nat × τ)) (id : Nat) (v : τ) :
    (m.map Prod.fst).Pairwise (· < ·) → mapGet m id = some v →
      m.filter (fun p => decide (p.1 ≤ id)) =
        m.filter (fun p => decide (p.1 < id)) ++ [(id, v)] := by
  induction m with
  | nil => intro _ h; exact absurd h (by simp [mapGet])
  | cons p rest ih =>
    intro hs hv
    rw [List.map_cons, List.pairwise_cons] at hs
    rcases Nat.lt_trichotomy p.1 id with hlt | heq | hgt
    · have hp : mapGet rest id = some v := by
        have : ¬ p.1 = id := ne_of_lt hlt
        simpa [mapGet, this] using hv
      rw [List.filter_cons, List.filter_cons, if_pos (by simpa using le_of_lt hlt),
        if_pos (by simpa using hlt), ih hs.2 hp]
      rfl
    · have hvp : v = p.2 := by
        have hv2 := hv
        rw [mapGet, if_pos heq] at hv2
        exact (Option.some.inj hv2).symm
      subst hvp
      have hrest_le : rest.filter (fun q => decide (q.1 ≤ id)) = [] := by
        rw [List.filter_eq_nil_iff]
        intro q hq
        have : p.1 < q.1 := hs.1 q.1 (List.mem_map_of_mem Prod.fst hq)
        simp only [decide_eq_true_eq, not_le]
        omega
      have hrest_lt : rest.filter (fun q => decide (q.1 < id)) = [] := by
        rw [List.filter_eq_nil_iff]
        intro q hq
        have : p.1 < q.1 := hs.1 q.1 (List.mem_map_of_mem Prod.fst hq)
        simp only [decide_eq_true_eq, not_lt]
        omega
      rw [List.filter_cons, List.filter_cons, if_pos (by simpa using le_of_eq heq),
        if_neg (by simp [heq]), hrest_le, hrest_lt]
      cases p with
      | mk k w =>
        simp only at heq
        subst heq
        rfl
    · exfalso
      have hmem := (mapGet_isSome_iff (p :: rest) id).mp (by rw [hv]; rfl)
      rcases List.mem_cons.mp hmem with h1 | h1
      · omega
      · rcases List.mem_map.mp h1 with ⟨q, hq, hqid⟩
        have : p.1 < q.1 := hs.1 q.1 (List.mem_map_of_mem Prod.fst hq)
        omega

theorem btPrev_char (m : List (Nat × τ)) (ks : List Nat) (id : Nat)
    (hs : (m.map Prod.fst).Pairwise (· < ·)) :
    BtTestcaseStorageMap.prev (⟨m, ks⟩ : BtTestcaseStorageMap τ) id =
      if (mapGet m id).isSome then predIn (m.map Prod.fst) id else none := by
  cases hg : mapGet m id with
  | none =>
    rw [if_neg (by simp)]
    unfold BtTestcaseStorageMap.prev
    cases hL : (m.filter (fun p => decide (p.1 ≤ id))).getLast? with
    | none => rfl
    | some p =>
      have hpm := List.mem_of_getLast?_eq_some hL
      have hpmem := (List.mem_filter.mp hpm).1
      have hpne : p.1 ≠ id := by
        intro hpe
        have : id ∈ m.map Prod.fst := hpe ▸ List.mem_map_of_mem Prod.fst hpmem
        exact absurd ((mapGet_eq_none_iff m id).mp hg) (by simp [this])
      simp only [hL]
      rw [if_pos (fun hh => hpne hh.symm)]
  | some v =>
    rw [if_pos (by simp [hg])]
    unfold BtTestcaseStorageMap.prev
    have hdec := range_le_decompose m id v hs hg
    simp only [hdec, List.getLast?_concat, List.dropLast_concat]
    rw [if_neg (by simp)]
    rw [predIn_eq_filter_getLast]
    have hkf : (m.filter (fun p => decide (p.1 < id))).map Prod.fst =
        (m.map Prod.fst).filter (fun x => decide (x < id)) :=
      keysOf_filter m (fun x => decide (x < id))
    rw [← hkf, List.getLast?_map]

theorem range_ge_decompose (m : List (Nat × τ)) (id : Nat) (v : τ) :
    (m.map Prod.fst).Pairwise (· < ·) → mapGet m id = some v →
      m.filter (fun p => decide (id ≤ p.1)) =
        (id, v) :: m.filter (fun p => decide (id < p.1)) := by
  induction m with
  | nil => intro _ h; exact absurd h (by simp [mapGet])
  | cons p rest ih =>
    intro hs hv
    rw [List.map_cons, List.pairwise_cons] at hs
    rcases Nat.lt_trichotomy p.1 id with hlt | heq | hgt
    · have hp : mapGet rest id = some v := by
        have : ¬ p.1 = id := ne_of_lt hlt
        simpa [mapGet, this] using hv
      rw [List.filter_cons, List.filter_cons, if_neg (by simpa using hlt),
        if_neg (by simp; omega), ih hs.2 hp]
    · have hvp : v = p.2 := by
        have hv2 := hv
        rw [mapGet, if_pos heq] at hv2
        exact (Option.some.inj hv2).symm
      subst hvp
      have hrest_ge : rest.filter (fun q => decide (id ≤ q.1)) = rest := by
        rw [List.filter_eq_self]
        intro q hq
        have : p.1 < q.1 := hs.1 q.1 (List.mem_map_of_mem Prod.fst hq)
        simp only [decide_eq_true_eq]
        omega
      have hrest_gt : rest.filter (fun q => decide (id < q.1)) = rest := by
        rw [List.filter_eq_self]
        intro q hq
        have : p.1 < q.1 := hs.1 q.1 (List.mem_map_of_mem Prod.fst hq)
        simp only [decide_eq_true_eq]
        omega
      rw [List.filter_cons, List.filter_cons, if_pos (by simpa using le_of_eq heq.symm),
        if_neg (by simp [heq]), hrest_ge, hrest_gt]
      cases p with
      | mk k w =>
        simp only at heq
        subst heq
        rfl
    · exfalso
      have hmem := (mapGet_isSome_iff (p :: rest) id).mp (by rw [hv]; rfl)
      rcases List.mem_cons.mp hmem with h1 | h1
      · omega
      · rcases List.mem_map.mp h1 with ⟨q, hq, hqid⟩
        have : p.1 < q.1 := hs.1 q.1 (List.mem_map_of_mem Prod.fst hq)
        omega

theorem succIn_eq_filter_head (ks : List Nat) (k : Nat) :
    succIn ks k = (ks.filter (fun x => decide (k < x))).head? := by
  induction ks with
  | nil => rfl
  | cons a t ih =>
    by_cases ha : k < a
    · rw [succIn, if_pos ha, List.filter_cons, if_pos (by simpa using ha)]
      rfl
    · rw [succIn, if_neg ha, ih, List.filter_cons, if_neg (by simpa using ha)]

theorem btNext_char (m : List (Nat × τ)) (ks : List Nat) (id : Nat)
    (hs : (m.map Prod.fst).Pairwise (· < ·)) :
    BtTestcaseStorageMap.next (⟨m, ks⟩ : BtTestcaseStorageMap τ) id =
      if (mapGet m id).isSome then succIn (m.map Prod.fst) id else none := by
  cases hg : mapGet m id with
  | none =>
    rw [if_neg (by simp)]
    unfold BtTestcaseStorageMap.next
    cases hF : m.filter (fun p => decide (id ≤ p.1)) with
    | nil => rfl
    | cons p rest =>
      have hpm : p ∈ m.filter (fun p => decide (id ≤ p.1)) := by
        rw [hF]; exact List.mem_cons_self _ _
      have hpmem := (List.mem_filter.mp hpm).1
      have hpne : p.1 ≠ id := by
        intro hpe
        have : id ∈ m.map Prod.fst := hpe ▸ List.mem_map_of_mem Prod.fst hpmem
        exact absurd ((mapGet_eq_none_iff m id).mp hg) (by simp [this])
      simp only [hF]
      rw [if_pos (fun hh => hpne hh.symm)]
  | some v =>
    rw [if_pos (by simp [hg])]
    unfold BtTestcaseStorageMap.next
    have hdec := range_ge_decompose m id v hs hg
    simp only [hdec]
    rw [if_neg (by simp)]
    rw [succIn_eq_filter_head]
    have hkf : (m.filter (fun p => decide (id < p.1))).map Prod.fst =
        (m.map Prod.fst).filter (fun x => decide (id < x)) :=
      keysOf_filter m (fun x => decide (id < x))
    rw [← hkf, List.head?_map]

theorem MapRel_insertItem (L : TestcaseStorageMap τ) (E : List (Nat × τ))
    (id : Nat) (tc : τ) (hrel : MapRel L E)
    (hs : (E.map Prod.fst).Pairwise (· < ·))
    (hb : ∀ x ∈ E.map Prod.fst, x < id) :
    MapRel (L.insertItem id tc) (E ++ [(id, tc)]) := by
  obtain ⟨Lmap, Lkeys, Lfirst, Llast⟩ := L
  obtain ⟨hkeys, hfirst, hlast, hmap, hnodup, hlen⟩ := hrel
  simp only at hkeys hfirst hlast hmap hnodup hlen
  have hidE : mapGet E id = none :=
    (mapGet_eq_none_iff E id).mpr (fun hmem => lt_irrefl id (hb id hmem))
  have hidL : mapGet Lmap id = none := by
    rw [hmap id, hidE]
    rfl
  have hkeys2 : (E ++ [(id, tc)]).map Prod.fst = E.map Prod.fst ++ [id] := by
    simp
  have hgetE2 : ∀ k, mapGet (E ++ [(id, tc)]) k =
      if k = id then some tc else mapGet E k := by
    intro k
    rw [mapGet_append]
    by_cases hk : k = id
    · subst hk
      rw [hidE, if_pos rfl]
      simp [mapGet]
    · rw [if_neg hk]
      cases hg : mapGet E k with
      | none =>
        show mapGet [(id, tc)] k = none
        simp only [mapGet]
        rw [if_neg (by omega : ¬ id = k)]
      | some w => rfl
  have hsuccI : succIn (E.map Prod.fst ++ [id]) id = none := by
    rw [succIn_append_single]
    have h1 : succIn (E.map Prod.fst) id = none :=
      (succIn_eq_none_iff _ _).mpr (fun x hx _ => absurd (hb x hx) (by omega))
    rw [h1]
    simp
  have hpredI : predIn (E.map Prod.fst ++ [id]) id = (E.map Prod.fst).getLast? :=
    predIn_append_self _ _ hb
  cases hlid : Llast with
  | none =>
    subst hlid
    have hksnil : E.map Prod.fst = [] :=
      List.getLast?_eq_none_iff.mp hlast.symm
    have hEnil : E = [] := List.map_eq_nil_iff.mp hksnil
    subst hEnil
    have hfid : Lfirst = none := by
      rw [hfirst]
      rfl
    subst hfid
    have hres : TestcaseStorageMap.insertItem ⟨Lmap, Lkeys, none, none⟩ id tc =
        ⟨mapInsert Lmap id ⟨tc, none, none⟩, insertKey Lkeys id,
          some id, some id⟩ := rfl
    rw [hres]
    refine ⟨?_, rfl, rfl, ?_, ?_, ?_⟩
    · show insertKey Lkeys id = _
      rw [hkeys]
      rfl
    · intro k
      show mapGet (mapInsert Lmap id ⟨tc, none, none⟩) k = _
      rw [mapGet_mapInsert]
      by_cases hk : k = id
      · subst hk
        rw [if_pos rfl, hgetE2 k, if_pos rfl]
        simp only [Option.map_some']
        rw [show (([] : List (Nat × τ)) ++ [(k, tc)]).map Prod.fst = [] ++ [k] by simp]
        rw [predIn_append_self [] k (by simp)]
        have h2 : succIn ([] ++ [k]) k = none := by
          simp [succIn]
        rw [h2]
        rfl
      · rw [if_neg hk, hgetE2 k, if_neg hk]
        rw [hmap k]
        simp [mapGet]
    · show ((mapInsert Lmap id ⟨tc, none, none⟩).map Prod.fst).Nodup
      rw [keysOf_mapInsert_of_get_none Lmap id _ hidL]
      refine List.Nodup.append hnodup (List.nodup_singleton id) ?_
      intro x hx1 hx2
      rw [List.mem_singleton] at hx2
      subst hx2
      have hxs : (mapGet Lmap x).isSome := (mapGet_isSome_iff Lmap x).mpr hx1
      rw [hidL] at hxs
      exact absurd hxs (by simp)
    · show (mapInsert Lmap id ⟨tc, none, none⟩).length = _
      rw [length_mapInsert_of_get_none Lmap id _ hidL, hlen]
      simp
  | some l =>
    subst hlid
    have hlast2 : (E.map Prod.fst).getLast? = some l := hlast.symm
    have hlc := (getLast?_sorted_char _ hs l).mp hlast2
    have hlid2 : l < id := hb l hlc.1
    have hnonnil : E.map Prod.fst ≠ [] := by
      intro hnil
      rw [hnil] at hlc
      exact absurd hlc.1 (List.not_mem_nil l)
    obtain ⟨a, ha⟩ : ∃ a, Lfirst = some a := by
      rw [hfirst]
      cases hE : E.map Prod.fst with
      | nil => exact absurd hE hnonnil
      | cons a t => exact ⟨a, rfl⟩
    subst ha
    have hres : TestcaseStorageMap.insertItem ⟨Lmap, Lkeys, some a, some l⟩ id tc =
        ⟨mapInsert (mapModify Lmap l (fun it => { it with next := some id }))
            id ⟨tc, some l, none⟩,
          insertKey Lkeys id, some a, some id⟩ := rfl
    rw [hres]
    have hMget : ∀ k, mapGet (mapModify Lmap l
        (fun it => { it with next := some id })) k =
        if k = l then (mapGet Lmap l).map
          (fun it => { it with next := some id }) else mapGet Lmap k :=
      fun k => mapGet_mapModify Lmap l k _
    refine ⟨?_, ?_, ?_, ?_, ?_, ?_⟩
    · show insertKey Lkeys id = _
      rw [hkeys, insertKey_append _ _ hb, hkeys2]
    · show some a = _
      rw [hkeys2, hfirst]
      cases hE : E.map Prod.fst with
      | nil => exact absurd hE hnonnil
      | cons b t => rfl
    · show some id = _
      rw [hkeys2, List.getLast?_concat]
    · intro k
      show mapGet (mapInsert (mapModify Lmap l _) id ⟨tc, some l, none⟩) k = _
      rw [mapGet_mapInsert]
      by_cases hk : k = id
      · subst hk
        rw [if_pos rfl, hgetE2 k, if_pos rfl]
        simp only [Option.map_some']
        rw [hkeys2, hpredI, hsuccI, hlast2]
      · rw [if_neg hk, hMget k, hgetE2 k, if_neg hk]
        by_cases hkl : k = l
        · subst hkl
          have hEk : (mapGet E k).isSome := by
            rw [mapGet_isSome_iff]
            exact hlc.1
          rcases Option.isSome_iff_exists.mp hEk with ⟨w, hw⟩
          rw [if_pos rfl, hmap k, hw]
          simp only [Option.map_some']
          rw [hkeys2]
          have hsk : succIn (E.map Prod.fst ++ [id]) k = some id := by
            rw [succIn_append_single]
            have h1 : succIn (E.map Prod.fst) k = none :=
              (succIn_eq_none_iff _ _).mpr
                (fun x hx => not_lt.mpr (hlc.2 x hx))
            rw [h1, if_pos hlid2]
          have hpk : predIn (E.map Prod.fst ++ [id]) k =
              predIn (E.map Prod.fst) k :=
            predIn_append_of_not_lt _ _ _ (by omega)
          rw [hsk, hpk]
        · rw [if_neg hkl, hmap k]
          cases hg : mapGet E k with
          | none => rfl
          | some w =>
            have hkmem : k ∈ E.map Prod.fst :=
              (mapGet_isSome_iff E k).mp (by rw [hg]; rfl)
            have hkid : k < id := hb k hkmem
            simp only [Option.map_some']
            rw [hkeys2]
            have hpk : predIn (E.map Prod.fst ++ [id]) k =
                predIn (E.map Prod.fst) k :=
              predIn_append_of_not_lt _ _ _ (by omega)
            have hsk : succIn (E.map Prod.fst ++ [id]) k =
                succIn (E.map Prod.fst) k := by
              rw [succIn_append_single]
              cases hsucc : succIn (E.map Prod.fst) k with
              | some s => rfl
              | none =>
                exfalso
                have hmax : (E.map Prod.fst).getLast? = some k :=
                  (getLast?_sorted_char _ hs k).mpr
                    ⟨hkmem, fun x hx => not_lt.mp
                      ((succIn_eq_none_iff _ _).mp hsucc x hx)⟩
                rw [hlast2] at hmax
                exact hkl (Option.some.inj hmax).symm
            rw [hpk, hsk]
    · show ((mapInsert (mapModify Lmap l _) id ⟨tc, some l, none⟩).map Prod.fst).Nodup
      have hmod : mapGet (mapModify Lmap l
          (fun it => { it with next := some id })) id = none := by
        rw [hMget id, if_neg (by omega : ¬ id = l), hidL]
      rw [keysOf_mapInsert_of_get_none _ id _ hmod, keysOf_mapModify]
      refine List.Nodup.append hnodup (List.nodup_singleton id) ?_
      intro x hx1 hx2
      rw [List.mem_singleton] at hx2
      subst hx2
      have hxs : (mapGet Lmap x).isSome := (mapGet_isSome_iff Lmap x).mpr hx1
      rw [hidL] at hxs
      exact absurd hxs (by simp)
    · show (mapInsert (mapModify Lmap l _) id ⟨tc, some l, none⟩).length = _
      have hmod : mapGet (mapModify Lmap l
          (fun it => { it with next := some id })) id = none := by
        rw [hMget id, if_neg (by omega : ¬ id = l), hidL]
      rw [length_mapInsert_of_get_none _ id _ hmod, length_mapModify, hlen]
      simp

theorem MapRel_replace (L : TestcaseStorageMap τ) (E : List (Nat × τ))
    (id : Nat) (tc v : τ) (hrel : MapRel L E) (hv : mapGet E id = some v) :
    (L.replace id tc).1 = some v ∧
    MapRel (L.replace id tc).2 (mapModify E id (fun _ => tc)) := by
  obtain ⟨hkeys, hfirst, hlast, hmap, hnodup, hlen⟩ := hrel
  have hLid : mapGet L.map id =
      some ⟨v, predIn (E.map Prod.fst) id, succIn (E.map Prod.fst) id⟩ := by
    rw [hmap id, hv]
    rfl
  have hres : L.replace id tc =
      (some v,
        { L with map := mapModify L.map id (fun it => { it with testcase := tc }) }) := by
    unfold TestcaseStorageMap.replace
    rw [hLid]
  have hkeys2 : (mapModify E id (fun _ => tc)).map Prod.fst = E.map Prod.fst :=
    keysOf_mapModify E id _
  rw [hres]
  refine ⟨rfl, ?_, ?_, ?_, ?_, ?_, ?_⟩
  · show L.keys = _
    rw [hkeys2]
    exact hkeys
  · show L.first_id = _
    rw [hkeys2]
    exact hfirst
  · show L.last_id = _
    rw [hkeys2]
    exact hlast
  · intro k
    show mapGet (mapModify L.map id _) k = _
    rw [mapGet_mapModify, mapGet_mapModify, hkeys2]
    by_cases hk : k = id
    · subst hk
      rw [if_pos rfl, if_pos rfl, hLid, hv]
      rfl
    · rw [if_neg hk, if_neg hk, hmap k]
  · show ((mapModify L.map id _).map Prod.fst).Nodup
    rw [keysOf_mapModify]
    exact hnodup
  · show (mapModify L.map id _).length = _
    rw [length_mapModify, length_mapModify]
    exact hlen

theorem succ_of_pred (ks : List Nat) (id p : Nat)
    (hs : ks.Pairwise (· < ·)) (hmem : id ∈ ks)
    (hp : predIn ks id = some p) : succIn ks p = some id := by
  have hc := (predIn_char ks id hs p).mp hp
  rw [succIn_char ks p hs id]
  refine ⟨hmem, hc.2.1, ?_⟩
  intro x hx hpx
  by_contra hlt
  push_neg at hlt
  exact absurd (hc.2.2 x hx hlt) (not_le.mpr hpx)

theorem pred_of_succ (ks : List Nat) (id n : Nat)
    (hs : ks.Pairwise (· < ·)) (hmem : id ∈ ks)
    (hn : succIn ks id = some n) : predIn ks n = some id := by
  have hc := (succIn_char ks id hs n).mp hn
  rw [predIn_char ks n hs id]
  refine ⟨hmem, hc.2.1, ?_⟩
  intro x hx hxn
  by_contra hlt
  push_neg at hlt
  exact absurd (hc.2.2 x hx hlt) (not_le.mpr hxn)

theorem pred_of_succ_eq (ks : List Nat) (id k : Nat)
    (hs : ks.Pairwise (· < ·)) (hk : k ∈ ks)
    (h : succIn ks k = some id) : predIn ks id = some k := by
  have hc := (succIn_char ks k hs id).mp h
  rw [predIn_char ks id hs k]
  refine ⟨hk, hc.2.1, ?_⟩
  intro x hx hxid
  by_contra hlt
  push_neg at hlt
  exact absurd (hc.2.2 x hx hlt) (not_le.mpr hxid)

theorem succ_of_pred_eq (ks : List Nat) (id k : Nat)
    (hs : ks.Pairwise (· < ·)) (hk : k ∈ ks)
    (h : predIn ks k = some id) : succIn ks id = some k := by
  have hc := (predIn_char ks k hs id).mp h
  rw [succIn_char ks id hs k]
  refine ⟨hk, hc.2.1, ?_⟩
  intro x hx hidx
  by_contra hlt
  push_neg at hlt
  exact absurd (hc.2.2 x hx hlt) (not_le.mpr hidx)

theorem MapRel_remove (L : TestcaseStorageMap τ) (E : List (Nat × τ))
    (id : Nat) (v : τ) (hrel : MapRel L E)
    (hs : (E.map Prod.fst).Pairwise (· < ·))
    (hv : mapGet E id = some v) :
    (L.remove id).1 = some v ∧ MapRel (L.remove id).2 (mapDrop E id) := by
  obtain ⟨Lmap, Lkeys, Lfirst, Llast⟩ := L
  obtain ⟨hkeys, hfirst, hlast, hmap, hnodup, hlen⟩ := hrel
  dsimp only at hkeys hfirst hlast hmap hnodup hlen
  have hidmem : id ∈ E.map Prod.fst :=
    (mapGet_isSome_iff E id).mp (by rw [hv]; rfl)
  have hkeysF : (mapDrop E id).map Prod.fst =
      (E.map Prod.fst).filter (fun y => decide (y ≠ id)) := keysOf_mapDrop E id
  have hsF : ((E.map Prod.fst).filter
      (fun y => decide (y ≠ id))).Pairwise (· < ·) := hs.filter _
  have hkeysR : removeKey Lkeys id =
      (E.map Prod.fst).filter (fun y => decide (y ≠ id)) := by
    rw [hkeys, removeKey_eq_filter _ _ hs]
  have hEget2 : ∀ k, mapGet (mapDrop E id) k =
      if k = id then none else mapGet E k := fun k => mapGet_mapDrop E id k
  have hLid : mapGet Lmap id =
      some ⟨v, predIn (E.map Prod.fst) id, succIn (E.map Prod.fst) id⟩ := by
    rw [hmap id, hv]
    rfl
  have hEnodup : (E.map Prod.fst).Nodup := hs.imp (fun h => Nat.ne_of_lt h)
  have hlenE : (mapDrop E id).length + 1 = E.length :=
    length_mapDrop_of_nodup E id v hEnodup hv
  have hlenL : (mapDrop Lmap id).length + 1 = Lmap.length :=
    length_mapDrop_of_nodup Lmap id _ hnodup hLid
  have hnodupF : ((mapDrop Lmap id).map Prod.fst).Nodup :=
    nodup_keysOf_mapDrop Lmap id hnodup
  have hbase : ∀ k, mapGet (mapDrop Lmap id) k =
      if k = id then none else mapGet Lmap k := fun k => mapGet_mapDrop Lmap id k
  have hmemE : ∀ k (w : τ), mapGet E k = some w → k ∈ E.map Prod.fst :=
    fun k w hw => (mapGet_isSome_iff E k).mp (by rw [hw]; rfl)
  cases hpp : predIn (E.map Prod.fst) id with
  | none =>
    have hmin : ∀ x ∈ E.map Prod.fst, id ≤ x := by
      intro x hx
      by_contra hlt
      push_neg at hlt
      exact (predIn_eq_none_iff _ _).mp hpp x hx hlt
    have hhead : (E.map Prod.fst).head? = some id :=
      (head?_sorted_char _ hs id).mpr ⟨hidmem, hmin⟩
    cases hss : succIn (E.map Prod.fst) id with
    | none =>
      have hmax : ∀ x ∈ E.map Prod.fst, x ≤ id := by
        intro x hx
        by_contra hlt
        push_neg at hlt
        exact (succIn_eq_none_iff _ _).mp hss x hx hlt
      have hFnil : (E.map Prod.fst).filter (fun y => decide (y ≠ id)) = [] := by
        rw [List.filter_eq_nil_iff]
        intro x hx
        have h1 := hmin x hx
        have h2 := hmax x hx
        simp only [decide_eq_true_eq, ne_eq, not_not]
        omega
      have hLid2 : mapGet Lmap id = some ⟨v, none, none⟩ := by
        rw [hLid, hpp, hss]
      have hres : TestcaseStorageMap.remove ⟨Lmap, Lkeys, Lfirst, Llast⟩ id =
          (some v, ⟨mapDrop Lmap id, removeKey Lkeys id, none, none⟩) := by
        unfold TestcaseStorageMap.remove
        rw [hLid2]
        rfl
      rw [hres]
      refine ⟨rfl, ?_, ?_, ?_, ?_, ?_, ?_⟩
      · show removeKey Lkeys id = _
        rw [hkeysR, hkeysF]
      · show (none : Option Nat) = _
        rw [hkeysF, hFnil]
        rfl
      · show (none : Option Nat) = _
        rw [hkeysF, hFnil]
        rfl
      · intro k
        show mapGet (mapDrop Lmap id) k = _
        rw [hbase k, hEget2 k]
        by_cases hk : k = id
        · rw [if_pos hk, if_pos hk]
          rfl
        · rw [if_neg hk, if_neg hk, hmap k]
          cases hg : mapGet E k with
          | none => rfl
          | some w =>
            exfalso
            have hkm := hmemE k w hg
            have h1 := hmin k hkm
            have h2 := hmax k hkm
            omega
      · exact hnodupF
      · show (mapDrop Lmap id).length = _
        omega
    | some n =>
      have hnc := (succIn_char _ id hs n).mp hss
      have hnid : id < n := hnc.2.1
      have hpredn : predIn (E.map Prod.fst) n = some id :=
        pred_of_succ _ id n hs hidmem hss
      have hLid2 : mapGet Lmap id = some ⟨v, none, some n⟩ := by
        rw [hLid, hpp, hss]
      have hres : TestcaseStorageMap.remove ⟨Lmap, Lkeys, Lfirst, Llast⟩ id =
          (some v,
            ⟨mapModify (mapDrop Lmap id) n (fun it => { it with prev := none }),
              removeKey Lkeys id, some n, Llast⟩) := by
        unfold TestcaseStorageMap.remove
        rw [hLid2]
        rfl
      rw [hres]
      have hlastne : ∀ h0, (E.map Prod.fst).getLast? = some h0 → h0 ≠ id := by
        intro h0 hh0 he
        subst he
        have hc := (getLast?_sorted_char _ hs h0).mp hh0
        exact absurd (hc.2 n hnc.1) (not_le.mpr hnid)
      obtain ⟨h0, hh0⟩ : ∃ h0, (E.map Prod.fst).getLast? = some h0 := by
        cases hE : (E.map Prod.fst).getLast? with
        | none =>
          rw [List.getLast?_eq_none_iff] at hE
          rw [hE] at hidmem
          exact absurd hidmem (List.not_mem_nil id)
        | some z => exact ⟨z, rfl⟩
      refine ⟨rfl, ?_, ?_, ?_, ?_, ?_, ?_⟩
      · show removeKey Lkeys id = _
        rw [hkeysR, hkeysF]
      · show some n = _
        rw [hkeysF, head?_filter_of_head_eq _ _ hs hhead, hss]
      · show Llast = _
        rw [hkeysF, getLast?_filter_of_last_ne _ _ _ hs hh0 (hlastne h0 hh0),
          hlast, hh0]
      · intro k
        show mapGet (mapModify (mapDrop Lmap id) n _) k = _
        rw [mapGet_mapModify, hEget2 k]
        by_cases hk : k = id
        · rw [if_neg (by omega : ¬ k = n), if_pos hk, hbase k, if_pos hk]
          rfl
        · rw [if_neg hk]
          by_cases hkn : k = n
          · subst hkn
            rw [if_pos rfl, hbase k, if_neg hk, hmap k]
            have hEk : (mapGet E k).isSome := (mapGet_isSome_iff E k).mpr hnc.1
            rcases Option.isSome_iff_exists.mp hEk with ⟨w, hw⟩
            rw [hw]
            simp only [Option.map_some']
            rw [hkeysF]
            have hpredF : predIn ((E.map Prod.fst).filter
                (fun y => decide (y ≠ id))) k = none := by
              rw [predIn_filter _ _ _ hs hk, hpredn]
              simp [hpp]
            have hsuccF : succIn ((E.map Prod.fst).filter
                (fun y => decide (y ≠ id))) k = succIn (E.map Prod.fst) k := by
              rw [succIn_filter _ _ _ hs hk]
              cases hsk : succIn (E.map Prod.fst) k with
              | none => rfl
              | some s =>
                have hsne : s ≠ id := by
                  intro he
                  subst he
                  have := pred_of_succ_eq _ s k hs hnc.1 hsk
                  rw [hpp] at this
                  exact absurd this (by simp)
                simp [hsne]
            rw [hpredF, hsuccF]
          · rw [if_neg hkn, hbase k, if_neg hk, hmap k]
            cases hg : mapGet E k with
            | none => rfl
            | some w =>
              have hkm := hmemE k w hg
              simp only [Option.map_some']
              rw [hkeysF]
              have hsuccF : succIn ((E.map Prod.fst).filter
                  (fun y => decide (y ≠ id))) k = succIn (E.map Prod.fst) k := by
                rw [succIn_filter _ _ _ hs hk]
                cases hsk : succIn (E.map Prod.fst) k with
                | none => rfl
                | some s =>
                  have hsne : s ≠ id := by
                    intro he
                    subst he
                    have := pred_of_succ_eq _ s k hs hkm hsk
                    rw [hpp] at this
                    exact absurd this (by simp)
                  simp [hsne]
              have hpredF : predIn ((E.map Prod.fst).filter
                  (fun y => decide (y ≠ id))) k = predIn (E.map Prod.fst) k := by
                rw [predIn_filter _ _ _ hs hk]
                cases hpk : predIn (E.map Prod.fst) k with
                | none => rfl
                | some q =>
                  have hqne : q ≠ id := by
                    intro he
                    subst he
                    have := succ_of_pred_eq _ q k hs hkm hpk
                    rw [hss] at this
                    have hkn2 : k = n := (Option.some.inj this).symm
                    exact hkn hkn2
                  simp [hqne]
              rw [hsuccF, hpredF]
      · show ((mapModify (mapDrop Lmap id) n _).map Prod.fst).Nodup
        rw [keysOf_mapModify]
        exact hnodupF
      · show (mapModify (mapDrop Lmap id) n _).length = _
        rw [length_mapModify]
        omega
  | some p =>
    have hpc := (predIn_char _ id hs p).mp hpp
    have hpid : p < id := hpc.2.1
    have hsuccp : succIn (E.map Prod.fst) p = some id :=
      succ_of_pred _ id p hs hidmem hpp
    have hheadne : ∀ h0, (E.map Prod.fst).head? = some h0 → h0 ≠ id := by
      intro h0 hh0 he
      subst he
      have hc := (head?_sorted_char _ hs h0).mp hh0
      exact absurd (hc.2 p hpc.1) (not_le.mpr hpid)
    obtain ⟨h0, hh0⟩ : ∃ h0, (E.map Prod.fst).head? = some h0 := by
      cases hE : (E.map Prod.fst).head? with
      | none =>
        rw [List.head?_eq_none_iff] at hE
        rw [hE] at hidmem
        exact absurd hidmem (List.not_mem_nil id)
      | some z => exact ⟨z, rfl⟩
    have hfirstF : ((E.map Prod.fst).filter
        (fun y => decide (y ≠ id))).head? = some h0 :=
      head?_filter_of_head_ne _ _ _ hs hh0 (hheadne h0 hh0)
    cases hss : succIn (E.map Prod.fst) id with
    | none =>
      have hmax : ∀ x ∈ E.map Prod.fst, x ≤ id := by
        intro x hx
        by_contra hlt
        push_neg at hlt
        exact (succIn_eq_none_iff _ _).mp hss x hx hlt
      have hlastid : (E.map Prod.fst).getLast? = some id :=
        (getLast?_sorted_char _ hs id).mpr ⟨hidmem, hmax⟩
      have hLid2 : mapGet Lmap id = some ⟨v, some p, none⟩ := by
        rw [hLid, hpp, hss]
      have hres : TestcaseStorageMap.remove ⟨Lmap, Lkeys, Lfirst, Llast⟩ id =
          (some v,
            ⟨mapModify (mapDrop Lmap id) p (fun it => { it with next := none }),
              removeKey Lkeys id, Lfirst, some p⟩) := by
        unfold TestcaseStorageMap.remove
        rw [hLid2]
        rfl
      rw [hres]
      refine ⟨rfl, ?_, ?_, ?_, ?_, ?_, ?_⟩
      · show removeKey Lkeys id = _
        rw [hkeysR, hkeysF]
      · show Lfirst = _
        rw [hkeysF, hfirstF, hfirst, hh0]
      · show some p = _
        rw [hkeysF, getLast?_filter_of_last_eq _ _ hs hlastid, hpp]
      · intro k
        show mapGet (mapModify (mapDrop Lmap id) p _) k = _
        rw [mapGet_mapModify, hEget2 k]
        by_cases hk : k = id
        · rw [if_neg (by omega : ¬ k = p), if_pos hk, hbase k, if_pos hk]
          rfl
        · rw [if_neg hk]
          by_cases hkp : k = p
          · subst hkp
            rw [if_pos rfl, hbase k, if_neg hk, hmap k]
            have hEk : (mapGet E k).isSome := (mapGet_isSome_iff E k).mpr hpc.1
            rcases Option.isSome_iff_exists.mp hEk with ⟨w, hw⟩
            rw [hw]
            simp only [Option.map_some']
            rw [hkeysF]
            have hsuccF : succIn ((E.map Prod.fst).filter
                (fun y => decide (y ≠ id))) k = none := by
              rw [succIn_filter _ _ _ hs hk, hsuccp]
              simp [hss]
            have hpredF : predIn ((E.map Prod.fst).filter
                (fun y => decide (y ≠ id))) k = predIn (E.map Prod.fst) k := by
              rw [predIn_filter _ _ _ hs hk]
              cases hpk : predIn (E.map Prod.fst) k with
              | none => rfl
              | some q =>
                have hqne : q ≠ id := by
                  intro he
                  subst he
                  obtain ⟨-, hlt, -⟩ := (predIn_char _ k hs q).mp hpk
                  omega
                simp [hqne]
            rw [hsuccF, hpredF]
          · rw [if_neg hkp, hbase k, if_neg hk, hmap k]
            cases hg : mapGet E k with
            | none => rfl
            | some w =>
              have hkm := hmemE k w hg
              simp only [Option.map_some']
              rw [hkeysF]
              have hsuccF : succIn ((E.map Prod.fst).filter
                  (fun y => decide (y ≠ id))) k = succIn (E.map Prod.fst) k := by
                rw [succIn_filter _ _ _ hs hk]
                cases hsk : succIn (E.map Prod.fst) k with
                | none => rfl
                | some s =>
                  have hsne : s ≠ id := by
                    intro he
                    subst he
                    have hpq := pred_of_succ_eq _ s k hs hkm hsk
                    rw [hpp] at hpq
                    have hkp2 : k = p := (Option.some.inj hpq).symm
                    exact hkp hkp2
                  simp [hsne]
              have hpredF : predIn ((E.map Prod.fst).filter
                  (fun y => decide (y ≠ id))) k = predIn (E.map Prod.fst) k := by
                rw [predIn_filter _ _ _ hs hk]
                cases hpk : predIn (E.map Prod.fst) k with
                | none => rfl
                | some q =>
                  have hqne : q ≠ id := by
                    intro he
                    subst he
                    have := succ_of_pred_eq _ q k hs hkm hpk
                    rw [hss] at this
                    exact absurd this (by simp)
                  simp [hqne]
              rw [hsuccF, hpredF]
      · show ((mapModify (mapDrop Lmap id) p _).map Prod.fst).Nodup
        rw [keysOf_mapModify]
        exact hnodupF
      · show (mapModify (mapDrop Lmap id) p _).length = _
        rw [length_mapModify]
        omega
    | some n =>
      have hnc := (succIn_char _ id hs n).mp hss
      have hnid : id < n := hnc.2.1
      have hpn : p ≠ n := by omega
      have hpredn : predIn (E.map Prod.fst) n = some id :=
        pred_of_succ _ id n hs hidmem hss
      have hlastne : ∀ h0, (E.map Prod.fst).getLast? = some h0 → h0 ≠ id := by
        intro h0 hh0 he
        subst he
        have hc := (getLast?_sorted_char _ hs h0).mp hh0
        exact absurd (hc.2 n hnc.1) (not_le.mpr hnid)
      obtain ⟨h1, hh1⟩ : ∃ h1, (E.map Prod.fst).getLast? = some h1 := by
        cases hE : (E.map Prod.fst).getLast? with
        | none =>
          rw [List.getLast?_eq_none_iff] at hE
          rw [hE] at hidmem
          exact absurd hidmem (List.not_mem_nil id)
        | some z => exact ⟨z, rfl⟩
      have hLid2 : mapGet Lmap id = some ⟨v, some p, some n⟩ := by
        rw [hLid, hpp, hss]
      have hres : TestcaseStorageMap.remove ⟨Lmap, Lkeys, Lfirst, Llast⟩ id =
          (some v,
            ⟨mapModify (mapModify (mapDrop Lmap id) p
                (fun it => { it with next := some n })) n
                (fun it => { it with prev := some p }),
              removeKey Lkeys id, Lfirst, Llast⟩) := by
        unfold TestcaseStorageMap.remove
        rw [hLid2]
        rfl
      rw [hres]
      refine ⟨rfl, ?_, ?_, ?_, ?_, ?_, ?_⟩
      · show removeKey Lkeys id = _
        rw [hkeysR, hkeysF]
      · show Lfirst = _
        rw [hkeysF, hfirstF, hfirst, hh0]
      · show Llast = _
        rw [hkeysF, getLast?_filter_of_last_ne _ _ _ hs hh1 (hlastne h1 hh1),
          hlast, hh1]
      · intro k
        show mapGet (mapModify (mapModify (mapDrop Lmap id) p _) n _) k = _
        rw [mapGet_mapModify, hEget2 k]
        by_cases hk : k = id
        · rw [if_neg (by omega : ¬ k = n), mapGet_mapModify,
            if_neg (by omega : ¬ k = p), if_pos hk, hbase k, if_pos hk]
          rfl
        · rw [if_neg hk]
          by_cases hkn : k = n
          · subst hkn
            rw [if_pos rfl, mapGet_mapModify, if_neg (by omega : ¬ k = p),
              hbase k, if_neg hk, hmap k]
            have hEk : (mapGet E k).isSome := (mapGet_isSome_iff E k).mpr hnc.1
            rcases Option.isSome_iff_exists.mp hEk with ⟨w, hw⟩
            rw [hw]
            simp only [Option.map_some']
            rw [hkeysF]
            have hpredF : predIn ((E.map Prod.fst).filter
                (fun y => decide (y ≠ id))) k = some p := by
              rw [predIn_filter _ _ _ hs hk, hpredn]
              simp [hpp]
            have hsuccF : succIn ((E.map Prod.fst).filter
                (fun y => decide (y ≠ id))) k = succIn (E.map Prod.fst) k := by
              rw [succIn_filter _ _ _ hs hk]
              cases hsk : succIn (E.map Prod.fst) k with
              | none => rfl
              | some s =>
                have hsne : s ≠ id := by
                  intro he
                  subst he
                  obtain ⟨-, hlt, -⟩ := (succIn_char _ k hs s).mp hsk
                  omega
                simp [hsne]
            rw [hpredF, hsuccF]
          · rw [if_neg hkn, mapGet_mapModify]
            by_cases hkp : k = p
            · subst hkp
              rw [if_pos rfl, hbase k, if_neg hk, hmap k]
              have hEk : (mapGet E k).isSome := (mapGet_isSome_iff E k).mpr hpc.1
              rcases Option.isSome_iff_exists.mp hEk with ⟨w, hw⟩
              rw [hw]
              simp only [Option.map_some']
              rw [hkeysF]
              have hsuccF : succIn ((E.map Prod.fst).filter
                  (fun y => decide (y ≠ id))) k = some n := by
                rw [succIn_filter _ _ _ hs hk, hsuccp]
                simp [hss]
              have hpredF : predIn ((E.map Prod.fst).filter
                  (fun y => decide (y ≠ id))) k = predIn (E.map Prod.fst) k := by
                rw [predIn_filter _ _ _ hs hk]
                cases hpk : predIn (E.map Prod.fst) k with
                | none => rfl
                | some q =>
                  have hqne : q ≠ id := by
                    intro he
                    subst he
                    obtain ⟨-, hlt, -⟩ := (predIn_char _ k hs q).mp hpk
                    omega
                  simp [hqne]
              rw [hsuccF, hpredF]
            · rw [if_neg hkp, hbase k, if_neg hk, hmap k]
              cases hg : mapGet E k with
              | none => rfl
              | some w =>
                have hkm := hmemE k w hg
                simp only [Option.map_some']
                rw [hkeysF]
                have hsuccF : succIn ((E.map Prod.fst).filter
                    (fun y => decide (y ≠ id))) k = succIn (E.map Prod.fst) k := by
                  rw [succIn_filter _ _ _ hs hk]
                  cases hsk : succIn (E.map Prod.fst) k with
                  | none => rfl
                  | some s =>
                    have hsne : s ≠ id := by
                      intro he
                      subst he
                      have hpq := pred_of_succ_eq _ s k hs hkm hsk
                      rw [hpp] at hpq
                      have hkp2 : k = p := (Option.some.inj hpq).symm
                      exact hkp hkp2
                    simp [hsne]
                have hpredF : predIn ((E.map Prod.fst).filter
                    (fun y => decide (y ≠ id))) k = predIn (E.map Prod.fst) k := by
                  rw [predIn_filter _ _ _ hs hk]
                  cases hpk : predIn (E.map Prod.fst) k with
                  | none => rfl
                  | some q =>
                    have hqne : q ≠ id := by
                      intro he
                      subst he
                      have hsq := succ_of_pred_eq _ q k hs hkm hpk
                      rw [hss] at hsq
                      have hkn2 : k = n := (Option.some.inj hsq).symm
                      exact hkn hkn2
                    simp [hqne]
                rw [hsuccF, hpredF]
      · show ((mapModify (mapModify (mapDrop Lmap id) p _) n _).map Prod.fst).Nodup
        rw [keysOf_mapModify, keysOf_mapModify]
        exact hnodupF
      · show (mapModify (mapModify (mapDrop Lmap id) p _) n _).length = _
        rw [length_mapModify, length_mapModify]
        omega

theorem sorted_append_single (ks : List Nat) (id : Nat)
    (hs : ks.Pairwise (· < ·)) (hb : ∀ x ∈ ks, x < id) :
    (ks ++ [id]).Pairwise (· < ·) := by
  rw [List.pairwise_append]
  refine ⟨hs, List.pairwise_singleton _ _, ?_⟩
  intro a ha b hb2
  rw [List.mem_singleton] at hb2
  subst hb2
  exact hb a ha

theorem stepLB_rel (L : InMemoryCorpus τ) (B : BtInMemoryCorpus τ)
    (op : CorpusOp τ) (hrel : CorpusRel L B)
    (hop : op.usesReinsert = false) :
    (stepL L op).1 = (stepB B op).1 ∧
    CorpusRel (stepL L op).2 (stepB B op).2 := by
  obtain ⟨hen, hdis, ⟨hse, hke⟩, ⟨hsd, hkd⟩, hpid, hbe, hbd, hcur⟩ := hrel
  cases op with
  | add tc =>
    have hbt : btInsert B.storage.enabled.map B.storage.progressive_id tc =
        B.storage.enabled.map ++ [(B.storage.progressive_id, tc)] :=
      btInsert_append _ _ _ hbe
    refine ⟨?_, ?_⟩
    · show OpOut.newId L.storage.progressive_id =
        OpOut.newId B.storage.progressive_id
      rw [hpid]
    · show CorpusRel
        ⟨⟨L.storage.enabled.insertItem L.storage.progressive_id tc,
          L.storage.disabled, L.storage.progressive_id + 1⟩, L.current⟩
        ⟨⟨⟨btInsert B.storage.enabled.map B.storage.progressive_id tc,
           insertKey B.storage.enabled.keys B.storage.progressive_id⟩,
          B.storage.disabled, B.storage.progressive_id + 1⟩, B.current⟩
      rw [hpid]
      refine ⟨?_, hdis, ⟨?_, ?_⟩, ⟨hsd, hkd⟩, rfl, ?_, ?_, hcur⟩
      · show MapRel (L.storage.enabled.insertItem B.storage.progressive_id tc)
          (btInsert B.storage.enabled.map B.storage.progressive_id tc)
        rw [hbt]
        exact MapRel_insertItem _ _ _ _ hen hse hbe
      · show ((btInsert B.storage.enabled.map B.storage.progressive_id tc).map
          Prod.fst).Pairwise (· < ·)
        rw [hbt, List.map_append]
        exact sorted_append_single _ _ hse hbe
      · show insertKey B.storage.enabled.keys B.storage.progressive_id =
          (btInsert B.storage.enabled.map B.storage.progressive_id tc).map Prod.fst
        rw [hbt, List.map_append, hke, insertKey_append _ _ hbe]
        rfl
      · intro k hk
        show k < B.storage.progressive_id + 1
        rw [hbt, List.map_append] at hk
        rcases List.mem_append.mp hk with h1 | h2
        · have := hbe k h1
          omega
        · have h3 : k = B.storage.progressive_id := by simpa using h2
          omega
      · intro k hk
        show k < B.storage.progressive_id + 1
        have := hbd k hk
        omega
  | addDisabled tc =>
    have hbt : btInsert B.storage.disabled.map B.storage.progressive_id tc =
        B.storage.disabled.map ++ [(B.storage.progressive_id, tc)] :=
      btInsert_append _ _ _ hbd
    refine ⟨?_, ?_⟩
    · show OpOut.newId L.storage.progressive_id =
        OpOut.newId B.storage.progressive_id
      rw [hpid]
    · show CorpusRel
        ⟨⟨L.storage.enabled,
          L.storage.disabled.insertItem L.storage.progressive_id tc,
          L.storage.progressive_id + 1⟩, L.current⟩
        ⟨⟨B.storage.enabled,
          ⟨btInsert B.storage.disabled.map B.storage.progressive_id tc,
           insertKey B.storage.disabled.keys B.storage.progressive_id⟩,
          B.storage.progressive_id + 1⟩, B.current⟩
      rw [hpid]
      refine ⟨hen, ?_, ⟨hse, hke⟩, ⟨?_, ?_⟩, rfl, ?_, ?_, hcur⟩
      · show MapRel (L.storage.disabled.insertItem B.storage.progressive_id tc)
          (btInsert B.storage.disabled.map B.storage.progressive_id tc)
        rw [hbt]
        exact MapRel_insertItem _ _ _ _ hdis hsd hbd
      · show ((btInsert B.storage.disabled.map B.storage.progressive_id tc).map
          Prod.fst).Pairwise (· < ·)
        rw [hbt, List.map_append]
        exact sorted_append_single _ _ hsd hbd
      · show insertKey B.storage.disabled.keys B.storage.progressive_id =
          (btInsert B.storage.disabled.map B.storage.progressive_id tc).map Prod.fst
        rw [hbt, List.map_append, hkd, insertKey_append _ _ hbd]
        rfl
      · intro k hk
        show k < B.storage.progressive_id + 1
        have := hbe k hk
        omega
      · intro k hk
        show k < B.storage.progressive_id + 1
        rw [hbt, List.map_append] at hk
        rcases List.mem_append.mp hk with h1 | h2
        · have := hbd k h1
          omega
        · have h3 : k = B.storage.progressive_id := by simpa using h2
          omega
  | removeOp id =>
    cases hg : mapGet B.storage.enabled.map id with
    | some v =>
      have hLrem := MapRel_remove L.storage.enabled B.storage.enabled.map
        id v hen hse hg
      have hsplit : L.storage.enabled.remove id =
          (some v, (L.storage.enabled.remove id).2) := by
        rw [← hLrem.1]
      have hLr : L.remove id = (Except.ok v,
          ⟨⟨(L.storage.enabled.remove id).2, L.storage.disabled,
            L.storage.progressive_id⟩, L.current⟩) := by
        unfold InMemoryCorpus.remove
        rw [hsplit]
      have hBsplit : B.storage.enabled.remove id =
          (some v, ⟨mapDrop B.storage.enabled.map id,
            removeKey B.storage.enabled.keys id⟩) := by
        show (mapGet B.storage.enabled.map id,
            (⟨mapDrop B.storage.enabled.map id,
              removeKey B.storage.enabled.keys id⟩ : BtTestcaseStorageMap τ)) = _
        rw [hg]
      have hBr : B.remove id = (Except.ok v,
          ⟨⟨⟨mapDrop B.storage.enabled.map id,
             removeKey B.storage.enabled.keys id⟩, B.storage.disabled,
            B.storage.progressive_id⟩, B.current⟩) := by
        unfold BtInMemoryCorpus.remove
        rw [hBsplit]
      refine ⟨?_, ?_⟩
      · show OpOut.tcRes (L.remove id).1 = OpOut.tcRes (B.remove id).1
        rw [hLr, hBr]
      · show CorpusRel (L.remove id).2 (B.remove id).2
        rw [hLr, hBr]
        refine ⟨hLrem.2, hdis, ⟨?_, ?_⟩, ⟨hsd, hkd⟩, hpid, ?_, hbd, hcur⟩
        · show ((mapDrop B.storage.enabled.map id).map Prod.fst).Pairwise (· < ·)
          rw [keysOf_mapDrop]
          exact hse.filter _
        · show removeKey B.storage.enabled.keys id =
            (mapDrop B.storage.enabled.map id).map Prod.fst
          rw [hke, removeKey_eq_filter _ _ hse, keysOf_mapDrop]
        · intro k hk
          rw [keysOf_mapDrop] at hk
          exact hbe k ((mem_filter_ne _ _ _).mp hk).1
    | none =>
      have hLg : mapGet L.storage.enabled.map id = none := by
        simp [hen.2.2.2.1 id, hg]
      have hBsplitE : B.storage.enabled.remove id =
          (none, ⟨mapDrop B.storage.enabled.map id,
            removeKey B.storage.enabled.keys id⟩) := by
        show (mapGet B.storage.enabled.map id,
            (⟨mapDrop B.storage.enabled.map id,
              removeKey B.storage.enabled.keys id⟩ : BtTestcaseStorageMap τ)) = _
        rw [hg]
      cases hgd : mapGet B.storage.disabled.map id with
      | some v =>
        have hLrem := MapRel_remove L.storage.disabled B.storage.disabled.map
          id v hdis hsd hgd
        have hsplitD : L.storage.disabled.remove id =
            (some v, (L.storage.disabled.remove id).2) := by
          rw [← hLrem.1]
        have hLr : L.remove id = (Except.ok v,
            ⟨⟨L.storage.enabled, (L.storage.disabled.remove id).2,
              L.storage.progressive_id⟩, L.current⟩) := by
          unfold InMemoryCorpus.remove
          rw [remove_eq_none _ _ hLg, hsplitD]
        have hBsplitD : B.storage.disabled.remove id =
            (some v, ⟨mapDrop B.storage.disabled.map id,
              removeKey B.storage.disabled.keys id⟩) := by
          show (mapGet B.storage.disabled.map id,
              (⟨mapDrop B.storage.disabled.map id,
                removeKey B.storage.disabled.keys id⟩ : BtTestcaseStorageMap τ)) = _
          rw [hgd]
        have hBr : B.remove id = (Except.ok v,
            ⟨⟨B.storage.enabled,
              ⟨mapDrop B.storage.disabled.map id,
               removeKey B.storage.disabled.keys id⟩,
              B.storage.progressive_id⟩, B.current⟩) := by
          unfold BtInMemoryCorpus.remove
          rw [hBsplitE, hBsplitD]
        refine ⟨?_, ?_⟩
        · show OpOut.tcRes (L.remove id).1 = OpOut.tcRes (B.remove id).1
          rw [hLr, hBr]
        · show CorpusRel (L.remove id).2 (B.remove id).2
          rw [hLr, hBr]
          refine ⟨hen, hLrem.2, ⟨hse, hke⟩, ⟨?_, ?_⟩, hpid, hbe, ?_, hcur⟩
          · show ((mapDrop B.storage.disabled.map id).map Prod.fst).Pairwise (· < ·)
            rw [keysOf_mapDrop]
            exact hsd.filter _
          · show removeKey B.storage.disabled.keys id =
              (mapDrop B.storage.disabled.map id).map Prod.fst
            rw [hkd, removeKey_eq_filter _ _ hsd, keysOf_mapDrop]
          · intro k hk
            rw [keysOf_mapDrop] at hk
            exact hbd k ((mem_filter_ne _ _ _).mp hk).1
      | none =>
        have hLgd : mapGet L.storage.disabled.map id = none := by
          simp [hdis.2.2.2.1 id, hgd]
        have hLr : L.remove id =
            (Except.error (Error.keyNotFound (notFoundMsg id)), L) := by
          unfold InMemoryCorpus.remove
          rw [remove_eq_none _ _ hLg, remove_eq_none _ _ hLgd]
        have hBsplitD : B.storage.disabled.remove id =
            (none, ⟨mapDrop B.storage.disabled.map id,
              removeKey B.storage.disabled.keys id⟩) := by
          show (mapGet B.storage.disabled.map id,
              (⟨mapDrop B.storage.disabled.map id,
                removeKey B.storage.disabled.keys id⟩ : BtTestcaseStorageMap τ)) = _
          rw [hgd]
        have hBr : B.remove id =
            (Except.error (Error.keyNotFound (notFoundMsg id)), B) := by
          unfold BtInMemoryCorpus.remove
          rw [hBsplitE, hBsplitD]
        refine ⟨?_, ?_⟩
        · show OpOut.tcRes (L.remove id).1 = OpOut.tcRes (B.remove id).1
          rw [hLr, hBr]
        · show CorpusRel (L.remove id).2 (B.remove id).2
          rw [hLr, hBr]
          exact ⟨hen, hdis, ⟨hse, hke⟩, ⟨hsd, hkd⟩, hpid, hbe, hbd, hcur⟩
  | replaceOp id tc =>
    cases hg : mapGet B.storage.enabled.map id with
    | some v =>
      have hLrep := MapRel_replace L.storage.enabled B.storage.enabled.map
        id tc v hen hg
      have hsplit : L.storage.enabled.replace id tc =
          (some v, (L.storage.enabled.replace id tc).2) := by
        rw [← hLrep.1]
      have hLr : L.replace id tc = (Except.ok v,
          ⟨⟨(L.storage.enabled.replace id tc).2, L.storage.disabled,
            L.storage.progressive_id⟩, L.current⟩) := by
        unfold InMemoryCorpus.replace
        rw [hsplit]
      have hBsplit : B.storage.enabled.replace id tc =
          (some v, ⟨mapModify B.storage.enabled.map id (fun _ => tc),
            B.storage.enabled.keys⟩) := by
        unfold BtTestcaseStorageMap.replace
        rw [hg]
      have hBr : B.replace id tc = (Except.ok v,
          ⟨⟨⟨mapModify B.storage.enabled.map id (fun _ => tc),
             B.storage.enabled.keys⟩, B.storage.disabled,
            B.storage.progressive_id⟩, B.current⟩) := by
        unfold BtInMemoryCorpus.replace
        rw [hBsplit]
      refine ⟨?_, ?_⟩
      · show OpOut.tcRes (L.replace id tc).1 = OpOut.tcRes (B.replace id tc).1
        rw [hLr, hBr]
      · show CorpusRel (L.replace id tc).2 (B.replace id tc).2
        rw [hLr, hBr]
        refine ⟨hLrep.2, hdis, ⟨?_, ?_⟩, ⟨hsd, hkd⟩, hpid, ?_, hbd, hcur⟩
        · show ((mapModify B.storage.enabled.map id (fun _ => tc)).map
            Prod.fst).Pairwise (· < ·)
          rw [keysOf_mapModify]
          exact hse
        · show B.storage.enabled.keys =
            (mapModify B.storage.enabled.map id (fun _ => tc)).map Prod.fst
          rw [keysOf_mapModify]
          exact hke
        · intro k hk
          rw [keysOf_mapModify] at hk
          exact hbe k hk
    | none =>
      have hLg : mapGet L.storage.enabled.map id = none := by
        simp [hen.2.2.2.1 id, hg]
      have hLr : L.replace id tc =
          (Except.error (Error.keyNotFound (notFoundReplaceMsg id)),
            ⟨⟨L.storage.enabled, L.storage.disabled,
              L.storage.progressive_id⟩, L.current⟩) := by
        unfold InMemoryCorpus.replace
        rw [replace_eq_none _ _ _ hLg]
      have hBsplit : B.storage.enabled.replace id tc =
          (none, B.storage.enabled) := by
        unfold BtTestcaseStorageMap.replace
        rw [hg]
      have hBr : B.replace id tc =
          (Except.error (Error.keyNotFound (notFoundReplaceMsg id)),
            ⟨⟨B.storage.enabled, B.storage.disabled,
              B.storage.progressive_id⟩, B.current⟩) := by
        unfold BtInMemoryCorpus.replace
        rw [hBsplit]
      refine ⟨?_, ?_⟩
      · show OpOut.tcRes (L.replace id tc).1 = OpOut.tcRes (B.replace id tc).1
        rw [hLr, hBr]
      · show CorpusRel (L.replace id tc).2 (B.replace id tc).2
        rw [hLr, hBr]
        exact ⟨hen, hdis, ⟨hse, hke⟩, ⟨hsd, hkd⟩, hpid, hbe, hbd, hcur⟩
  | enableOp id =>
    simp [CorpusOp.usesReinsert] at hop
  | disableOp id =>
    simp [CorpusOp.usesReinsert] at hop

theorem SameObs_of_rel (L : InMemoryCorpus τ) (B : BtInMemoryCorpus τ)
    (hrel : CorpusRel L B) : SameObs L B := by
  obtain ⟨hen, hdis, ⟨hse, hke⟩, ⟨hsd, hkd⟩, hpid, hbe, hbd, hcur⟩ := hrel
  obtain ⟨hkeys, hfirst, hlast, hmapP, hnodup, hlen⟩ := hen
  obtain ⟨hkeysD, hfirstD, hlastD, hmapPD, hnodupD, hlenD⟩ := hdis
  refine ⟨?_, ?_, ?_, ?_, ?_, ?_, ?_, ?_, ?_, ?_, ?_⟩
  · intro id
    have hBn : BtTestcaseStorageMap.next B.storage.enabled id =
        if (mapGet B.storage.enabled.map id).isSome then
          succIn (B.storage.enabled.map.map Prod.fst) id else none :=
      btNext_char B.storage.enabled.map B.storage.enabled.keys id hse
    show TestcaseStorageMap.next L.storage.enabled id =
      BtTestcaseStorageMap.next B.storage.enabled id
    rw [hBn]
    cases hg : mapGet B.storage.enabled.map id with
    | none =>
      rw [if_neg (by simp [hg])]
      simp [TestcaseStorageMap.next, hmapP id, hg]
    | some v =>
      rw [if_pos (by simp [hg])]
      simp [TestcaseStorageMap.next, hmapP id, hg]
  · intro id
    have hBp : BtTestcaseStorageMap.prev B.storage.enabled id =
        if (mapGet B.storage.enabled.map id).isSome then
          predIn (B.storage.enabled.map.map Prod.fst) id else none :=
      btPrev_char B.storage.enabled.map B.storage.enabled.keys id hse
    show TestcaseStorageMap.prev L.storage.enabled id =
      BtTestcaseStorageMap.prev B.storage.enabled id
    rw [hBp]
    cases hg : mapGet B.storage.enabled.map id with
    | none =>
      rw [if_neg (by simp [hg])]
      simp [TestcaseStorageMap.prev, hmapP id, hg]
    | some v =>
      rw [if_pos (by simp [hg])]
      simp [TestcaseStorageMap.prev, hmapP id, hg]
  · show L.storage.enabled.first_id = B.storage.enabled.map.head?.map Prod.fst
    rw [hfirst, List.head?_map]
  · show L.storage.enabled.last_id = B.storage.enabled.map.getLast?.map Prod.fst
    rw [hlast, List.getLast?_map]
  · intro id
    show InMemoryCorpus.get L id = BtInMemoryCorpus.get B id
    cases hg : mapGet B.storage.enabled.map id with
    | none =>
      simp [InMemoryCorpus.get, BtInMemoryCorpus.get, TestcaseStorageMap.get,
        BtTestcaseStorageMap.get, hmapP id, hg]
    | some v =>
      simp [InMemoryCorpus.get, BtInMemoryCorpus.get, TestcaseStorageMap.get,
        BtTestcaseStorageMap.get, hmapP id, hg]
  · intro id
    show InMemoryCorpus.get_from_all L id = BtInMemoryCorpus.get_from_all B id
    cases hg : mapGet B.storage.enabled.map id with
    | some v =>
      simp [InMemoryCorpus.get_from_all, BtInMemoryCorpus.get_from_all,
        TestcaseStorageMap.get, BtTestcaseStorageMap.get, hmapP id, hg]
    | none =>
      cases hgd : mapGet B.storage.disabled.map id with
      | some v =>
        simp [InMemoryCorpus.get_from_all, BtInMemoryCorpus.get_from_all,
          TestcaseStorageMap.get, BtTestcaseStorageMap.get, hmapP id,
          hmapPD id, hg, hgd]
      | none =>
        simp [InMemoryCorpus.get_from_all, BtInMemoryCorpus.get_from_all,
          TestcaseStorageMap.get, BtTestcaseStorageMap.get, hmapP id,
          hmapPD id, hg, hgd]
  · show L.storage.enabled.map.length = B.storage.enabled.map.length
    exact hlen
  · show L.storage.disabled.map.length = B.storage.disabled.map.length
    exact hlenD
  · show satAdd L.storage.enabled.map.length L.storage.disabled.map.length =
      satAdd B.storage.enabled.map.length B.storage.disabled.map.length
    rw [hlen, hlenD]
  · show L.storage.enabled.keys = B.storage.enabled.keys
    rw [hkeys, hke]
  · show L.storage.disabled.keys = B.storage.disabled.keys
    rw [hkeysD, hkd]

theorem CorpusRel_new : CorpusRel (InMemoryCorpus.new (τ := τ)) BtInMemoryCorpus.new := by
  refine ⟨⟨rfl, rfl, rfl, ?_, List.Pairwise.nil, rfl⟩,
    ⟨rfl, rfl, rfl, ?_, List.Pairwise.nil, rfl⟩,
    ⟨List.Pairwise.nil, rfl⟩, ⟨List.Pairwise.nil, rfl⟩, rfl, ?_, ?_, rfl⟩
  · intro k
    rfl
  · intro k
    rfl
  · intro k hk
    simp [BtInMemoryCorpus.new, BtTestcaseStorage.new,
      BtTestcaseStorageMap.new] at hk
  · intro k hk
    simp [BtInMemoryCorpus.new, BtTestcaseStorage.new,
      BtTestcaseStorageMap.new] at hk

theorem execLB_rel (ops : List (CorpusOp τ)) (L : InMemoryCorpus τ)
    (B : BtInMemoryCorpus τ) (hrel : CorpusRel L B)
    (hops : ops.all (fun op => ! op.usesReinsert) = true) :
    (execL L ops).2 = (execB B ops).2 ∧
    CorpusRel (execL L ops).1 (execB B ops).1 := by
  induction ops generalizing L B with
  | nil => exact ⟨rfl, hrel⟩
  | cons op rest ih =>
    rw [List.all_cons, Bool.and_eq_true] at hops
    have hop : op.usesReinsert = false := by simpa using hops.1
    have hstep := stepLB_rel L B op hrel hop
    have hih := ih (stepL L op).2 (stepB B op).2 hstep.2 hops.2
    constructor
    · show (stepL L op).1 :: (execL (stepL L op).2 rest).2 =
        (stepB B op).1 :: (execB (stepB B op).2 rest).2
      rw [hstep.1, hih.1]
    · show CorpusRel (execL (stepL L op).2 rest).1 (execB (stepB B op).2 rest).1
      exact hih.2

/-- C2 counterexample: the two `TestcaseStorageMap` variants do not return
identical answers for every identical operation history once the
enable/disable reinsertion path (`insert_inner_with_id`) is involved.
After `add, add, add, disable 0, enable 0`, the linked variant reinserts
id 0 at the tail of the navigation list, so `first()` answers `some 1`,
while the btreemap variant keeps its keys ordered and answers `some 0`. -/
theorem c2_counterexample :
    (runL (InMemoryCorpus.new (τ := Unit))
        [CorpusOp.add (), CorpusOp.add (), CorpusOp.add (),
          CorpusOp.disableOp 0, CorpusOp.enableOp 0]).first ≠
    (runB (BtInMemoryCorpus.new (τ := Unit))
        [CorpusOp.add (), CorpusOp.add (), CorpusOp.add (),
          CorpusOp.disableOp 0, CorpusOp.enableOp 0]).first := by
  decide

/-- C2 (amended): for every operation history that stays away from the
enable/disable reinsertion path, the hash-map-plus-linked-list variant and
the `corpus_btreemap` variant of the corpus return the same answer to every
operation, and afterwards agree on every observable: `next`, `prev`,
`first`, `last`, `get`, `get_from_all`, the three counts and the `keys`
vectors of both partitions. -/
theorem c2_variant_equivalence {τ : Type} (ops : List (CorpusOp τ))
    (hops : ops.all (fun op => ! op.usesReinsert) = true) :
    (execL InMemoryCorpus.new ops).2 = (execB BtInMemoryCorpus.new ops).2 ∧
    SameObs (runL InMemoryCorpus.new ops) (runB BtInMemoryCorpus.new ops) := by
  have h := execLB_rel ops InMemoryCorpus.new BtInMemoryCorpus.new
    CorpusRel_new hops
  exact ⟨h.1, SameObs_of_rel _ _ h.2⟩

/-- Witness for the amended C2 at a concrete reinsertion-free history. -/
theorem c2_variant_equivalence_witness :
    ([CorpusOp.add (), CorpusOp.addDisabled (), CorpusOp.removeOp 0,
        CorpusOp.replaceOp 1 ()].all (fun op => ! op.usesReinsert) = true) ∧
    ((execL (InMemoryCorpus.new (τ := Unit))
        [CorpusOp.add (), CorpusOp.addDisabled (), CorpusOp.removeOp 0,
          CorpusOp.replaceOp 1 ()]).2 =
      (execB BtInMemoryCorpus.new
        [CorpusOp.add (), CorpusOp.addDisabled (), CorpusOp.removeOp 0,
          CorpusOp.replaceOp 1 ()]).2 ∧
      SameObs
        (runL InMemoryCorpus.new
          [CorpusOp.add (), CorpusOp.addDisabled (), CorpusOp.removeOp 0,
            CorpusOp.replaceOp 1 ()])
        (runB BtInMemoryCorpus.new
          [CorpusOp.add (), CorpusOp.addDisabled (), CorpusOp.removeOp 0,
            CorpusOp.replaceOp 1 ()])) :=
  ⟨by decide, c2_variant_equivalence _ (by decide)⟩

end LibAFL
